import Mathlib

set_option maxRecDepth 8000

namespace Ehrsh

/-!
Shallow embedding of the ehrsh natural-language command parser
(src/ui/format.ts together with src/utils/parser.ts), the command
dispatcher fragments of src/index.ts, the session layer (src/session.ts)
and the conditional workflow engine (src/workflow.ts).

Command text is modelled as `List Char`.  The JavaScript regular
expressions of the source are embedded through a small backtracking
pattern engine (`Pat` / `mrun`) whose result list is ordered exactly like
the backtracking order of the JavaScript engine (alternation left first,
greedy quantifiers longest first, lazy quantifiers shortest first), so
that the head of the list is the JavaScript match.
-/

/-- Character-list representation of a string literal. -/
def str (s : String) : List Char := s.data

/-- ASCII lower-casing of one character, as performed by the
toLowerCase calls of the source (all inputs of interest are ASCII). -/
def lowerChar (c : Char) : Char :=
  if 65 ≤ c.toNat ∧ c.toNat ≤ 90 then Char.ofNat (c.toNat + 32) else c

/-- ASCII upper-casing of one character (charAt(0).toUpperCase() in the source). -/
def upperChar (c : Char) : Char :=
  if 97 ≤ c.toNat ∧ c.toNat ≤ 122 then Char.ofNat (c.toNat - 32) else c

/-- The JavaScript whitespace characters: the set matched by the regex
whitespace class and stripped by String.prototype.trim. -/
def wsChars : List Char :=
  [Char.ofNat 32, Char.ofNat 9, Char.ofNat 10, Char.ofNat 13, Char.ofNat 11,
   Char.ofNat 12, Char.ofNat 160, Char.ofNat 0x1680, Char.ofNat 0x2000,
   Char.ofNat 0x2001, Char.ofNat 0x2002, Char.ofNat 0x2003, Char.ofNat 0x2004,
   Char.ofNat 0x2005, Char.ofNat 0x2006, Char.ofNat 0x2007, Char.ofNat 0x2008,
   Char.ofNat 0x2009, Char.ofNat 0x200a, Char.ofNat 0x2028, Char.ofNat 0x2029,
   Char.ofNat 0x202f, Char.ofNat 0x205f, Char.ofNat 0x3000, Char.ofNat 0xfeff]

/-- Membership in the JavaScript whitespace class. -/
def isJsWS (c : Char) : Bool := wsChars.contains c

/-- The regex word class: ASCII letters, digits and underscore. -/
def isWordChar (c : Char) : Bool := c.isAlpha || c.isDigit || c = Char.ofNat 95

/-- toLowerCase on a whole string. -/
def jsLower (s : List Char) : List Char := s.map lowerChar

/-- String.prototype.trim: strip JavaScript whitespace from both ends. -/
def jsTrim (s : List Char) : List Char :=
  ((s.dropWhile (fun c => isJsWS c)).reverse.dropWhile (fun c => isJsWS c)).reverse

/-- Case-insensitive literal test: does `s` start with the (lower-case)
literal `p`? -/
def ciPre : List Char → List Char → Bool
  | [], _ => true
  | _ :: _, [] => false
  | p :: ps, c :: cs => (lowerChar c = p) && ciPre ps cs

/-- Exact literal test: does `s` start with `p`? -/
def lPre : List Char → List Char → Bool
  | [], _ => true
  | _ :: _, [] => false
  | p :: ps, c :: cs => (p = c) && lPre ps cs

/-- String.prototype.includes: `needle` occurs somewhere in the string. -/
def jsIncludes (needle : List Char) : List Char → Bool
  | [] => lPre needle []
  | c :: rest => lPre needle (c :: rest) || jsIncludes needle rest

/-- Auxiliary splitter with fuel (the fuel is always large enough, see
`splitOnLit`). -/
def splitOnLitAux (sep : List Char) : Nat → List Char → List Char → List (List Char)
  | 0, acc, s => [acc.reverse ++ s]
  | fuel + 1, acc, s =>
    match s with
    | [] => [acc.reverse]
    | c :: rest =>
      if lPre sep s then
        acc.reverse :: splitOnLitAux sep fuel [] (s.drop sep.length)
      else
        splitOnLitAux sep fuel (c :: acc) rest

/-- String.prototype.split with a literal separator. -/
def splitOnLit (sep s : List Char) : List (List Char) :=
  splitOnLitAux sep (s.length + 1) [] s

/-!  The pattern engine.  -/

/-- Abstract syntax of the regular expressions appearing in the source.
Literals are matched case-insensitively: every source regex containing a
letter carries the i flag, and the remaining ones contain no letters, so
a uniformly case-insensitive literal is faithful. -/
inductive Pat where
  | lit : List Char → Pat
  | cls : (Char → Bool) → Pat
  | seq : Pat → Pat → Pat
  | alt : Pat → Pat → Pat
  | opt : Pat → Pat
  | plusG : (Char → Bool) → Pat
  | plusL : (Char → Bool) → Pat
  | starG : (Char → Bool) → Pat
  | repRange : (Char → Bool) → Nat → Nat → Pat
  | repGE : (Char → Bool) → Nat → Pat
  | grp : Nat → Pat → Pat
  | wordB : Pat
  | eos : Pat

/-- One branch of a backtracking match: remaining input, the character
just before that remainder (for the word-boundary assertion) and the
capture groups recorded on this branch. -/
structure MRes where
  rest : List Char
  prev : Option Char
  caps : List (Nat × List Char)

/-- All the ways a character-class quantifier can consume one or more
characters, shortest first, together with the last consumed character and
the number of consumed characters. -/
def ascSplits (cl : Char → Bool) : List Char → List (List Char × Char × Nat)
  | [] => []
  | c :: rest =>
    if cl c then
      (rest, c, 1) :: (ascSplits cl rest).map (fun t => (t.1, t.2.1, t.2.2 + 1))
    else []

/-- Character preceding the remainder after consuming `n` characters of `s`. -/
def afterConsume (n : Nat) (prev : Option Char) (s : List Char) : Option Char :=
  match (s.take n).getLast? with
  | some c => some c
  | none => prev

/-- The word-boundary assertion between `prev` and the next character. -/
def wordBoundary (prev : Option Char) (s : List Char) : Bool :=
  let pw := match prev with | some c => isWordChar c | none => false
  let nw := match s with | c :: _ => isWordChar c | [] => false
  pw != nw

/-- Backtracking matcher.  The returned list enumerates the possible
continuations in the backtracking order of the JavaScript engine, so its
head is the branch JavaScript commits to. -/
def mrun : Pat → Option Char → List Char → List (Nat × List Char) → List MRes
  | .lit l, prev, s, caps =>
      if ciPre l s then [⟨s.drop l.length, afterConsume l.length prev s, caps⟩] else []
  | .cls p, _, s, caps =>
      match s with
      | c :: rest => if p c then [⟨rest, some c, caps⟩] else []
      | [] => []
  | .seq p q, prev, s, caps =>
      (mrun p prev s caps).flatMap (fun r => mrun q r.prev r.rest r.caps)
  | .alt p q, prev, s, caps => mrun p prev s caps ++ mrun q prev s caps
  | .opt p, prev, s, caps => mrun p prev s caps ++ [⟨s, prev, caps⟩]
  | .plusG p, _, s, caps =>
      ((ascSplits p s).reverse).map (fun t => ⟨t.1, some t.2.1, caps⟩)
  | .plusL p, _, s, caps =>
      (ascSplits p s).map (fun t => ⟨t.1, some t.2.1, caps⟩)
  | .starG p, prev, s, caps =>
      (((ascSplits p s).reverse).map (fun t => ⟨t.1, some t.2.1, caps⟩)) ++ [⟨s, prev, caps⟩]
  | .repRange p lo hi, prev, s, caps =>
      ((((ascSplits p s).filter (fun t => lo ≤ t.2.2 && t.2.2 ≤ hi)).reverse).map
        (fun t => ⟨t.1, some t.2.1, caps⟩)) ++
      (if lo = 0 then [⟨s, prev, caps⟩] else [])
  | .repGE p lo, prev, s, caps =>
      ((((ascSplits p s).filter (fun t => lo ≤ t.2.2)).reverse).map
        (fun t => ⟨t.1, some t.2.1, caps⟩)) ++
      (if lo = 0 then [⟨s, prev, caps⟩] else [])
  | .grp n p, prev, s, caps =>
      (mrun p prev s caps).map
        (fun r => ⟨r.rest, r.prev, (n, s.take (s.length - r.rest.length)) :: r.caps⟩)
  | .wordB, prev, s, caps =>
      if wordBoundary prev s then [⟨s, prev, caps⟩] else []
  | .eos, prev, s, caps =>
      match s with
      | [] => [⟨[], prev, caps⟩]
      | _ :: _ => []

/-- Unanchored test (RegExp.prototype.test): try every start position,
left to right. -/
def testFrom (r : Pat) : Option Char → List Char → Bool
  | prev, [] => !(mrun r prev [] []).isEmpty
  | prev, c :: rest => !(mrun r prev (c :: rest) []).isEmpty || testFrom r (some c) rest

/-- RegExp.prototype.test on a whole string. -/
def regexTest (r : Pat) (s : List Char) : Bool := testFrom r none s

/-- Unanchored leftmost match, returning its capture groups. -/
def findFrom (r : Pat) : Option Char → List Char → Option (List (Nat × List Char))
  | prev, [] =>
    match mrun r prev [] [] with
    | res :: _ => some res.caps
    | [] => none
  | prev, c :: rest =>
    match mrun r prev (c :: rest) [] with
    | res :: _ => some res.caps
    | [] => findFrom r (some c) rest

/-- String.prototype.match for a non-global regex: captures of the
leftmost match. -/
def regexFind (r : Pat) (s : List Char) : Option (List (Nat × List Char)) :=
  findFrom r none s

/-- Value of capture group `n` (undefined groups give none). -/
def capGet (caps : List (Nat × List Char)) (n : Nat) : Option (List Char) :=
  match caps.find? (fun t => t.1 = n) with
  | some t => some t.2
  | none => none

/-- Leftmost match, then capture group `n`. -/
def findCap (r : Pat) (n : Nat) (s : List Char) : Option (List Char) :=
  match regexFind r s with
  | some caps => capGet caps n
  | none => none

/-- Anchored match for the source regexes that start with a caret and end
with a dollar (the dollar is represented by a trailing `Pat.eos`). -/
def matchAnchored (r : Pat) (s : List Char) : Option (List (Nat × List Char)) :=
  match mrun r none s [] with
  | res :: _ => some res.caps
  | [] => none

/-- Global replace (String.prototype.replace with the g flag): scan left
to right, replace each leftmost match and resume after it.  All replace
patterns of the source consume at least one character; a zero-width match
is skipped defensively. -/
def gReplaceAux (r : Pat) (repl : List (Nat × List Char) → List Char) :
    Nat → Option Char → List Char → List Char
  | 0, _, s => s
  | _ + 1, _, [] => []
  | fuel + 1, prev, c :: rest =>
    match mrun r prev (c :: rest) [] with
    | res :: _ =>
      if (c :: rest).length - res.rest.length = 0 then
        c :: gReplaceAux r repl fuel (some c) rest
      else
        repl res.caps ++ gReplaceAux r repl fuel res.prev res.rest
    | [] => c :: gReplaceAux r repl fuel (some c) rest

/-- Global replace on a whole string. -/
def gReplace (r : Pat) (repl : List (Nat × List Char) → List Char) (s : List Char) :
    List Char :=
  gReplaceAux r repl (s.length + 1) none s

/-!  Data model of the parser (interface ParsedCommand of the source).  -/

/-- The closed action set.  The source value show is spelled show_ because
show is a reserved word in Lean. -/
inductive ActionType
  | search | show_ | list | add | update | plot | draft | message | select
  | help | check | ask | flag | workflow
deriving DecidableEq, Repr

/-- The closed resource set. -/
inductive ResourceType
  | patient | schedule | appointment | medication | lab | note | encounter
  | sms | response | workflow | unknown
deriving DecidableEq, Repr

/-- Comparison operators of lab and count conditions.  The source keeps
them as the strings gt lt eq ge le; eqc stands for the equality sign. -/
inductive CmpOp
  | gt | lt | eqc | ge | le
deriving DecidableEq, Repr

/-- Expected patient response of a patient_response condition. -/
inductive ExpectedResponse
  | yes | no | any
deriving DecidableEq, Repr

/-- Condition types of a parsed conditional workflow. -/
inductive CondType
  | patient_response | lab_value | result_empty | result_count
deriving DecidableEq, Repr

/-- params of interface ParsedCommand.  A missing field of the open map is
none; JavaScript truthiness of the string fields is tested through
jsTruthyStr below. -/
structure CommandParams where
  patientId : Option (List Char) := none
  patientName : Option (List Char) := none
  date : Option (List Char) := none
  labCode : Option (List Char) := none
  medicationName : Option (List Char) := none
  timeRange : Option (List Char) := none
  message : Option (List Char) := none
  messageContent : Option (List Char) := none
  conversationId : Option (List Char) := none
  index : Option Int := none
  useActivePatient : Option Bool := none
  newTime : Option (List Char) := none
  specialty : Option (List Char) := none
  appointmentId : Option (List Char) := none
deriving DecidableEq, Repr

/-- conditionParams of interface ParsedConditionalWorkflow.  Numbers are
modelled as rationals (the numeric inputs of interest are exact
decimals). -/
structure ConditionParams where
  expectedResponse : Option ExpectedResponse := none
  labCode : Option (List Char) := none
  operator : Option CmpOp := none
  value : Option ℚ := none
  count : Option ℚ := none
deriving DecidableEq, Repr

/-- interface ParsedConditionalWorkflow of the source. -/
structure ParsedConditionalWorkflow where
  conditionType : CondType
  conditionParams : ConditionParams
  thenCommand : List Char
  elseCommand : Option (List Char) := none
  askMessage : Option (List Char) := none
deriving DecidableEq, Repr

/-- interface ParsedCommand of the source. -/
structure ParsedCommand where
  action : ActionType
  resource : ResourceType
  params : CommandParams
  raw : List Char
  workflow : Option ParsedConditionalWorkflow := none
deriving DecidableEq, Repr

/-- JavaScript truthiness of an optional string (undefined and the empty
string are falsy). -/
def jsTruthyStr (o : Option (List Char)) : Bool :=
  match o with
  | some s => !s.isEmpty
  | none => false

/-- JavaScript truthiness of an optional boolean. -/
def jsTruthyB (o : Option Bool) : Bool := o.getD false

/-!  Character classes used by the source regexes.  -/

/-- The regex dot (without the s flag): any character except the four
line terminators. -/
def isDotChar (c : Char) : Bool :=
  !(c = Char.ofNat 10 || c = Char.ofNat 13 || c = Char.ofNat 0x2028 || c = Char.ofNat 0x2029)

def isDigitChar (c : Char) : Bool := c.isDigit

/-- The class of the two quote characters. -/
def isQuoteChar (c : Char) : Bool := c = Char.ofNat 34 || c = Char.ofNat 39

def isNotQuoteChar (c : Char) : Bool := !isQuoteChar c

/-- The Unicode letter class of the source name patterns, restricted to
ASCII letters (every input of interest is ASCII). -/
def isLetterChar (c : Char) : Bool := c.isAlpha

/-- Letter, apostrophe or hyphen: the name-body class of the source. -/
def isNameChar (c : Char) : Bool := c.isAlpha || c = Char.ofNat 39 || c = Char.ofNat 45

/-- The a-to-z class under the i flag. -/
def isAZChar (c : Char) : Bool := c.isAlpha

/-- The class a-f 0-9 hyphen under the i flag (patient id tokens). -/
def isHexDashChar (c : Char) : Bool :=
  (97 ≤ (lowerChar c).toNat && (lowerChar c).toNat ≤ 102) || c.isDigit || c = Char.ofNat 45

/-- The class of comparison characters in the lab-threshold detector. -/
def isOpChar (c : Char) : Bool :=
  c = Char.ofNat 62 || c = Char.ofNat 60 || c = Char.ofNat 61

/-- Digit or dot: the numeric-literal class of the lab patterns. -/
def isDigitDotChar (c : Char) : Bool := c.isDigit || c = Char.ofNat 46

/-- Letters, digits or hyphen: the conversation id class under the i flag. -/
def isConvChar (c : Char) : Bool := c.isAlpha || c.isDigit || c = Char.ofNat 45

def isCommaChar (c : Char) : Bool := c = Char.ofNat 44

def isSemiChar (c : Char) : Bool := c = Char.ofNat 59

def isNonWSChar (c : Char) : Bool := !isJsWS c

/-!  Pattern-building helpers.  -/

/-- Sequence of a nonempty list of patterns. -/
def pseq (l : List Pat) : Pat :=
  match l with
  | [] => Pat.lit []
  | p :: ps => ps.foldl Pat.seq p

/-- Alternation of a nonempty list of patterns, first alternative first. -/
def palt (l : List Pat) : Pat :=
  match l with
  | [] => Pat.lit []
  | p :: ps => ps.foldl Pat.alt p

/-- Case-insensitive literal pattern. -/
def plit (w : String) : Pat := Pat.lit (str w)

/-- Alternation of literal words. -/
def palts (ws : List String) : Pat := palt (ws.map plit)

/-- One or more whitespace characters. -/
def pw : Pat := Pat.plusG isJsWS

/-- Zero or more whitespace characters. -/
def pws : Pat := Pat.starG isJsWS

/-!  The source regexes, on their declaration order.  -/

/-- ACTION_PATTERNS of the source, in declaration order; classification
takes the first pattern that tests true. -/
def actionPats : List (ActionType × Pat) :=
  [ (.ask, pseq [.wordB, plit "ask", pw, palts ["pt", "patient"]]),
    (.flag, pseq [.wordB, plit "flag", pw, palts ["for", "patient"]]),
    (.workflow, pseq [.wordB, palts ["workflow", "pending"], .wordB]),
    (.message, pseq [.wordB,
      palt [plit "message", plit "text", plit "sms",
        pseq [plit "send", pw, Pat.opt (pseq [plit "a", pw]), plit "message"],
        plit "contact"], .wordB]),
    (.check, pseq [.wordB, palts ["check", "poll", "get"], pw,
      Pat.opt (pseq [plit "for", pw]), plit "response"]),
    (.search, pseq [.wordB,
      palt [plit "search", plit "find", pseq [plit "look", pws, plit "up"], plit "lookup"],
      .wordB]),
    (.show_, pseq [.wordB, palts ["show", "display", "view", "get", "see"], .wordB]),
    (.list, pseq [.wordB,
      palt [plit "list", plit "all", pseq [plit "show", pw, plit "all"]], .wordB]),
    (.add, pseq [.wordB, palts ["add", "create", "prescribe", "order", "new"], .wordB]),
    (.update, pseq [.wordB, palts ["update", "change", "modify", "reschedule", "move"], .wordB]),
    (.plot, pseq [.wordB, palts ["plot", "chart", "graph", "trend", "visualize"], .wordB]),
    (.draft, pseq [.wordB,
      palt [plit "draft", plit "write", plit "compose", pseq [plit "create", pw, plit "note"]],
      .wordB]),
    (.select, pseq [.wordB, palts ["select", "choose", "pick", "use"], .wordB]),
    (.help, pseq [.wordB, palts ["help", "commands"], .wordB]) ]

/-- RESOURCE_PATTERNS of the source, in declaration order (the specific
resources are declared before the generic patient pattern). -/
def resourcePats : List (ResourceType × Pat) :=
  [ (.workflow, pseq [.wordB,
      palt [plit "workflow", plit "workflows", pseq [plit "pending", pw, plit "workflow"]],
      .wordB]),
    (.sms, pseq [.wordB, palts ["message", "text", "sms"], pw, plit "patient", .wordB]),
    (.response, pseq [.wordB, palts ["response", "responses", "reply", "replies"], .wordB]),
    (.schedule, pseq [.wordB,
      palt [plit "schedule",
        pseq [plit "today", Pat.starG isDotChar, plit "schedule"],
        plit "clinic",
        pseq [plit "appointment", Pat.opt (plit "s"), Pat.starG isDotChar, plit "today"]],
      .wordB]),
    (.appointment, pseq [.wordB, palts ["appointment", "appt", "appointments", "slot"], .wordB]),
    (.medication, pseq [.wordB,
      palts ["med", "meds", "medication", "medications", "prescription", "prescriptions",
        "rx", "drug", "drugs"], .wordB]),
    (.lab, pseq [.wordB,
      palts ["lab", "labs", "laboratory", "bloodwork", "test", "tests", "result", "results",
        "creatinine", "glucose", "hemoglobin", "hba1c", "cbc", "bmp", "cmp", "sodium",
        "potassium", "bun", "wbc", "platelets", "cholesterol", "triglycerides", "alt", "ast"],
      .wordB]),
    (.note, pseq [.wordB, palts ["note", "notes", "documentation"], .wordB]),
    (.encounter, pseq [.wordB, palts ["encounter", "visit", "visits", "encounters"], .wordB]),
    (.patient, pseq [.wordB, palts ["patient", "pt", "patients", "pts"], .wordB]) ]

/-- LAB_CODE_MAP of the source, in declaration order. -/
def labCodeMap : List (List Char × List Char) :=
  [(str "creatinine", str "2160-0"), (str "glucose", str "2345-7"),
   (str "hba1c", str "4548-4"), (str "hemoglobin", str "718-7"),
   (str "sodium", str "2951-2"), (str "potassium", str "2823-3"),
   (str "bun", str "3094-0"), (str "wbc", str "6690-2"), (str "platelets", str "777-3")]

/-- Quoted patient name. -/
def quotedNamePat : Pat :=
  pseq [Pat.cls isQuoteChar, Pat.grp 1 (Pat.plusG isNotQuoteChar), Pat.cls isQuoteChar]

/-- Body of a patient name: a letter word, optionally followed by a
second letter word. -/
def nameBodyPat : Pat :=
  pseq [Pat.cls isLetterChar, Pat.starG isNameChar,
    Pat.opt (pseq [pw, Pat.cls isLetterChar, Pat.starG isNameChar])]

/-- Patient name after the word named. -/
def namedPat : Pat := pseq [Pat.wordB, plit "named", pw, Pat.grp 1 nameBodyPat]

/-- Patient name after pt or patient. -/
def ptNamePat : Pat :=
  pseq [Pat.wordB, palt [plit "pt", plit "patient"], pw, Pat.grp 1 nameBodyPat]

/-- Patient id (digits, or a hex-like token of length at least eight)
after patient or pt. -/
def idPat : Pat :=
  pseq [Pat.wordB, palt [plit "patient", plit "pt"], pw,
    Pat.grp 1 (Pat.alt (Pat.plusG isDigitChar) (Pat.repGE isHexDashChar 8)), Pat.wordB]

/-- Selection index after select or choose. -/
def indexPat : Pat :=
  pseq [Pat.wordB, palt [plit "select", plit "choose"], pw,
    Pat.opt (pseq [plit "patient", pw]), Pat.grp 1 (Pat.plusG isDigitChar), Pat.wordB]

/-- Medication name of an add, prescribe or order phrase. -/
def medPat : Pat :=
  pseq [Pat.wordB, palts ["add", "prescribe", "order"], pw, Pat.grp 1 (Pat.plusG isAZChar),
    Pat.opt (pseq [pw, palts ["to", "for"]]), pw, palts ["patient", "pt"]]

/-- past or last, N years. -/
def trYearsN : Pat :=
  pseq [Pat.wordB, palts ["past", "last"], pw, Pat.grp 1 (Pat.plusG isDigitChar), pw,
    plit "year", Pat.opt (plit "s"), Pat.wordB]

/-- past or last year. -/
def trYear1 : Pat := pseq [Pat.wordB, palts ["past", "last"], pw, plit "year", Pat.wordB]

def trMonthsN : Pat :=
  pseq [Pat.wordB, palts ["past", "last"], pw, Pat.grp 1 (Pat.plusG isDigitChar), pw,
    plit "month", Pat.opt (plit "s"), Pat.wordB]

def trMonth1 : Pat := pseq [Pat.wordB, palts ["past", "last"], pw, plit "month", Pat.wordB]

def trWeeksN : Pat :=
  pseq [Pat.wordB, palts ["past", "last"], pw, Pat.grp 1 (Pat.plusG isDigitChar), pw,
    plit "week", Pat.opt (plit "s"), Pat.wordB]

def trWeek1 : Pat := pseq [Pat.wordB, palts ["past", "last"], pw, plit "week", Pat.wordB]

def todayPat : Pat := pseq [Pat.wordB, plit "today", Pat.wordB]

/-- Pronouns that refer to the active patient. -/
def theirPat : Pat := pseq [Pat.wordB, palts ["their", "his", "her"], Pat.wordB]

/-- Message body after about, saying or that, up to the end of the input. -/
def aboutPat : Pat :=
  pseq [Pat.wordB, palts ["about", "saying", "that"], pw, Pat.opt (Pat.cls isQuoteChar),
    Pat.grp 1 (Pat.plusL isDotChar), Pat.opt (Pat.cls isQuoteChar), pws, Pat.eos]

/-- Message body after if, up to the end of the input (ask-style commands). -/
def ifTailPat : Pat :=
  pseq [Pat.wordB, plit "if", pw, Pat.opt (Pat.cls isQuoteChar),
    Pat.grp 1 (Pat.plusL isDotChar), Pat.opt (Pat.cls isQuoteChar), pws, Pat.eos]

/-- Trailing quoted message. -/
def quotedMsgPat : Pat :=
  pseq [Pat.cls isQuoteChar, Pat.grp 1 (Pat.plusG isNotQuoteChar), Pat.cls isQuoteChar,
    pws, Pat.eos]

/-- Conversation id token. -/
def convPat : Pat :=
  pseq [Pat.wordB, Pat.grp 1 (pseq [plit "conv-", Pat.plusG isConvChar]), Pat.wordB]

/-- Alternation of the lab vocabulary of the conditional patterns. -/
def labNamesAlt : Pat :=
  palts ["creatinine", "glucose", "hba1c", "hemoglobin", "sodium", "potassium",
    "bun", "wbc", "platelets"]

/-- Detector shape 1: ask pt or patient, then an embedded yes-or-no
conditional. -/
def condP1 : Pat :=
  pseq [Pat.wordB, plit "ask", pw, palts ["pt", "patient"], pw, Pat.plusL isDotChar,
    Pat.opt (Pat.cls isCommaChar), pws, plit "if", pw, palts ["yes", "no", "he", "she", "they"],
    Pat.wordB, Pat.starG isDotChar, Pat.wordB, plit "then", Pat.wordB]

/-- Detector shape 2: a lab threshold conditional. -/
def condP2 : Pat :=
  pseq [Pat.wordB, plit "if", pw, labNamesAlt, pws, Pat.plusG isOpChar, pws,
    Pat.plusG isDigitDotChar, pw, plit "then", Pat.wordB]

/-- Detector shape 3: an empty-result conditional. -/
def condP3 : Pat :=
  pseq [Pat.opt (Pat.cls isCommaChar), pws, plit "if", pw,
    palt [plit "none", plit "empty", pseq [plit "no", pw, plit "result", Pat.opt (plit "s")],
      plit "nothing"],
    pw, Pat.opt (pseq [plit "found", pw]), Pat.opt (pseq [plit "then", pw]),
    palts ["add", "flag", "create", "show"]]

/-- Detector shape 4: a generic yes-or-no conditional. -/
def condP4 : Pat :=
  pseq [Pat.wordB, plit "if", pw,
    palt [plit "yes", plit "no", pseq [plit "they", pw, palts ["say", "respond", "reply"]]],
    Pat.wordB, Pat.starG isDotChar, Pat.wordB, plit "then", Pat.wordB]

/-- says or responds, with the optional plural s. -/
def saysAlt : Pat :=
  palt [pseq [plit "say", Pat.opt (plit "s")], pseq [plit "respond", Pat.opt (plit "s")]]

/-- Anchored pattern 1 of parseConditionalWorkflowCommand: the
patient-reply shape. -/
def askFullPat : Pat :=
  pseq [
    Pat.grp 1 (pseq [plit "ask", pw, palts ["pt", "patient"], pw, Pat.plusG isNonWSChar,
      pw, Pat.plusL isDotChar]),
    pws, Pat.opt (Pat.cls isCommaChar), pws, plit "if", pw, palts ["he", "she", "they"], pw,
    saysAlt, pw, Pat.grp 2 (palts ["yes", "no"]), pw, Pat.opt (pseq [plit "then", pw]),
    Pat.grp 3 (Pat.plusL isDotChar),
    Pat.opt (pseq [pw,
      palt [pseq [plit "if", pw, palts ["he", "she", "they"], pw, saysAlt, pw,
        palts ["yes", "no"]], plit "else"],
      pw, Pat.grp 4 (Pat.plusG isDotChar)]),
    Pat.eos]

/-- Anchored pattern 2 of parseConditionalWorkflowCommand: the
lab-threshold shape. -/
def labFullPat : Pat :=
  pseq [plit "if", pw, Pat.grp 1 labNamesAlt, pws,
    Pat.grp 2 (palt [plit ">", plit "<", plit "=", plit ">=", plit "<="]), pws,
    Pat.grp 3 (Pat.plusG isDigitDotChar), pw, plit "then", pw,
    Pat.grp 4 (Pat.plusL isDotChar),
    Pat.opt (pseq [pw, plit "else", pw, Pat.grp 5 (Pat.plusG isDotChar)]), Pat.eos]

/-- Anchored pattern 3 of parseConditionalWorkflowCommand: the
empty-result shape. -/
def resultEmptyFullPat : Pat :=
  pseq [Pat.grp 1 (Pat.plusL isDotChar), pws, Pat.cls isCommaChar, pws, plit "if", pw,
    palt [plit "none", plit "empty", pseq [plit "no", pw, plit "result", Pat.opt (plit "s")],
      plit "nothing"],
    pw, Pat.opt (pseq [plit "found", pw]), Pat.opt (pseq [plit "then", pw]),
    Pat.grp 2 (Pat.plusL isDotChar),
    Pat.opt (pseq [pw, plit "else", pw, Pat.grp 3 (Pat.plusG isDotChar)]), Pat.eos]

/-- Anchored pattern 4 of parseConditionalWorkflowCommand: the generic
yes-or-no shape. -/
def genericFullPat : Pat :=
  pseq [Pat.grp 1 (Pat.plusL isDotChar), pws, Pat.opt (Pat.cls isCommaChar), pws, plit "if", pw,
    Pat.grp 2 (palt [plit "yes", plit "no",
      pseq [plit "they", pw, palts ["say", "respond", "reply"], pw, palts ["yes", "no"]]]),
    pw, plit "then", pw, Pat.grp 3 (Pat.plusL isDotChar),
    Pat.opt (pseq [pw, plit "else", pw, Pat.grp 4 (Pat.plusG isDotChar)]), Pat.eos]

/-- The ask-message extractor inside pattern 1: everything after the
embedded if. -/
def msgIfPat : Pat := pseq [Pat.wordB, plit "if", pw, Pat.grp 1 (Pat.plusL isDotChar), Pat.eos]

/-- Time of day (extractTime). -/
def timePat : Pat :=
  pseq [Pat.wordB, Pat.grp 1 (Pat.repRange isDigitChar 1 2),
    Pat.opt (pseq [Pat.cls (fun c => c = Char.ofNat 58), Pat.grp 2 (Pat.repRange isDigitChar 2 2)]),
    pws, Pat.opt (Pat.grp 3 (palts ["am", "pm"])), Pat.wordB]

/-- The flag-for phrase of extractSpecialty. -/
def flagSpecPat : Pat :=
  pseq [Pat.wordB, plit "flag", pw, Pat.opt (pseq [plit "for", pw]),
    Pat.grp 1 (pseq [Pat.plusG isAZChar, Pat.opt (pseq [pw, Pat.plusG isAZChar])]), Pat.wordB]

/-!  Compound-command detection and splitting.  -/

/-- The whitespace-delimited then connector. -/
def rThen : Pat := pseq [pw, plit "then", pw]

/-- A comma or semicolon, optional whitespace, then a word character. -/
def rPunct : Pat :=
  pseq [Pat.cls (fun c => isCommaChar c || isSemiChar c), pws, Pat.cls isWordChar]

/-- The chaining verbs accepted after the word and, in declaration order. -/
def chainVerbs : List String :=
  ["show", "find", "search", "add", "update", "plot", "draft", "select", "list",
   "display", "view", "get", "see"]

/-- Whitespace, the word and, whitespace, then a chaining verb (capture
group 1 holds the verb for the split replacement). -/
def rAndVerb : Pat := pseq [pw, plit "and", pw, Pat.grp 1 (palts chainVerbs)]

/-- isCompoundCommand of the source: the three regex tests, in order. -/
def isCompoundCommand (input : List Char) : Bool :=
  regexTest rThen input || regexTest rPunct input || regexTest rAndVerb input

/-- The whitespace-delimited and-then connector. -/
def rAndThen : Pat := pseq [pw, plit "and", pw, plit "then", pw]

/-- A semicolon with trailing optional whitespace. -/
def rSemi : Pat := pseq [Pat.cls isSemiChar, pws]

/-- A comma with trailing optional whitespace. -/
def rComma : Pat := pseq [Pat.cls isCommaChar, pws]

/-- The internal separator token inserted by splitCompoundCommand. -/
def splitToken : List Char := str "__SPLIT__"

/-- The replacement text, a space on each side of the separator. -/
def splitRepl : List Char := str " __SPLIT__ "

/-- splitCompoundCommand of the source: normalize every connector to the
internal separator, split on it, trim and drop empty segments. -/
def splitCompoundCommand (input : List Char) : List (List Char) :=
  let n1 := gReplace rAndThen (fun _ => splitRepl) input
  let n2 := gReplace rThen (fun _ => splitRepl) n1
  let n3 := gReplace rSemi (fun _ => splitRepl) n2
  let n4 := gReplace rComma (fun _ => splitRepl) n3
  let n5 := gReplace rAndVerb (fun caps => splitRepl ++ (capGet caps 1).getD []) n4
  ((splitOnLit splitToken n5).map jsTrim).filter (fun s => s.length > 0)

/-!  Single-command compilation (parseSingleCommand of the source).  -/

/-- Ordered first-match action classification. -/
def detectAction (raw : List Char) : ActionType :=
  match actionPats.find? (fun e => regexTest e.2 raw) with
  | some e => e.1
  | none => .show_

/-- Ordered first-match resource classification. -/
def detectResource (raw : List Char) : ResourceType :=
  match resourcePats.find? (fun e => regexTest e.2 raw) with
  | some e => e.1
  | none => .unknown

/-- Digit string to number (parseInt on a pure digit capture). -/
def digitsToNat (s : List Char) : Nat :=
  s.foldl (fun acc c => acc * 10 + (c.toNat - 48)) 0

/-- parseFloat on a capture of the digit-dot class: leading digits, then
an optional fraction after the first dot; everything after a second dot
is ignored.  The value ip + fd / 10 ^ k is written over the common
denominator 10 ^ k so that it computes by kernel reduction.  The NaN
corner (a capture with no digits at all) is outside the inputs of
interest and is mapped to zero. -/
def parseJsFloat (s : List Char) : ℚ :=
  let ip := s.takeWhile (fun c => c.isDigit)
  let rest := s.dropWhile (fun c => c.isDigit)
  match rest with
  | c :: fr =>
    if c = Char.ofNat 46 then
      let fd := fr.takeWhile (fun x => x.isDigit)
      mkRat (digitsToNat ip * 10 ^ fd.length + digitsToNat fd) (10 ^ fd.length)
    else mkRat (digitsToNat ip) 1
  | [] => mkRat (digitsToNat ip) 1

/-- The pure-digits test applied to a pt-name capture. -/
def isAllDigits (s : List Char) : Bool := !s.isEmpty && s.all (fun c => c.isDigit)

/-- LAB_CODE_MAP lookup by substring inclusion, first entry wins. -/
def extractLabCode (raw : List Char) : Option (List Char) :=
  (labCodeMap.find? (fun e => jsIncludes e.1 (jsLower raw))).map (fun e => e.2)

/-- The time-range extraction chain of parseSingleCommand; the second
component is the date parameter set by the today branch. -/
def extractTimeRange (raw : List Char) : Option (List Char) × Option (List Char) :=
  if regexTest trYearsN raw then
    (match findCap trYearsN 1 raw with
     | some m => (some (m ++ str "y"), none)
     | none => (none, none))
  else if regexTest trYear1 raw then (some (str "1y"), none)
  else if regexTest trMonthsN raw then
    (match findCap trMonthsN 1 raw with
     | some m => (some (m ++ str "m"), none)
     | none => (none, none))
  else if regexTest trMonth1 raw then (some (str "1m"), none)
  else if regexTest trWeeksN raw then
    (match findCap trWeeksN 1 raw with
     | some m => (some (m ++ str "w"), none)
     | none => (none, none))
  else if regexTest trWeek1 raw then (some (str "1w"), none)
  else if regexTest todayPat raw then (none, some (str "today"))
  else (none, none)

/-- The message extraction of parseSingleCommand: the three regexes are
evaluated and the first present match, checked in the order trailing
quoted string, about phrase, if phrase, supplies the message body (the if
capture is suffixed with a question mark). -/
def extractMessageContent (raw : List Char) : Option (List Char) :=
  match findCap quotedMsgPat 1 raw with
  | some q => some q
  | none =>
    match findCap aboutPat 1 raw with
    | some a => some a
    | none =>
      match findCap ifTailPat 1 raw with
      | some i => some (i ++ str "?")
      | none => none

/-- parseSingleCommand of the source. -/
def parseSingleCommand (input : List Char) : Option ParsedCommand :=
  let raw := jsTrim input
  if raw.isEmpty then none else
  let action := detectAction raw
  let resource0 := detectResource raw
  let quotedName := findCap quotedNamePat 1 raw
  let namedName := findCap namedPat 1 raw
  let ptName := findCap ptNamePat 1 raw
  let patientName :=
    match quotedName with
    | some q => some q
    | none =>
      match namedName with
      | some n => some n
      | none =>
        match ptName with
        | some p => if isAllDigits p then none else some p
        | none => none
  let patientId := findCap idPat 1 raw
  let index := (findCap indexPat 1 raw).map (fun d => (digitsToNat d : Int))
  let labCode := extractLabCode raw
  let medCap := findCap medPat 1 raw
  let isMedAction := action = ActionType.add ∨ action = ActionType.update
  let medicationName :=
    match medCap with
    | some m => if isMedAction then some m else none
    | none => none
  let resource1 :=
    match medCap with
    | some _ => if isMedAction then ResourceType.medication else resource0
    | none => resource0
  let tr := extractTimeRange raw
  let useActivePatient := if regexTest theirPat raw then some true else none
  let isMsgAction := action = ActionType.message ∨ action = ActionType.ask
  let resource2 :=
    if isMsgAction ∧ resource1 ≠ ResourceType.response then ResourceType.sms else resource1
  let messageContent := if isMsgAction then extractMessageContent raw else none
  let resource3 := if action = ActionType.check then ResourceType.response else resource2
  let conversationId := if action = ActionType.check then findCap convPat 1 raw else none
  some { action := action, resource := resource3,
         params := { patientId := patientId, patientName := patientName, date := tr.2,
                     labCode := labCode, medicationName := medicationName, timeRange := tr.1,
                     messageContent := messageContent, conversationId := conversationId,
                     index := index, useActivePatient := useActivePatient },
         raw := raw }

/-- isConditionalWorkflow of the source: the four detector shapes, in
priority order. -/
def isConditionalWorkflow (input : List Char) : Bool :=
  regexTest condP1 input || regexTest condP2 input ||
  regexTest condP3 input || regexTest condP4 input

/-- replace of a single trailing question mark. -/
def stripTrailingQ (s : List Char) : List Char :=
  match s.reverse with
  | c :: rest => if c = Char.ofNat 63 then rest.reverse else s
  | [] => s

/-- Map of the operator capture of the lab shape onto the operator type. -/
def opOfChars (s : List Char) : CmpOp :=
  if s = str ">=" then .ge
  else if s = str "<=" then .le
  else if s = str ">" then .gt
  else if s = str "<" then .lt
  else .eqc

/-- parseConditionalWorkflowCommand of the source: the four anchored
shapes tried in order, then compilation of the residual base command. -/
def parseConditionalWorkflowCommand (input : List Char) : ParsedCommand :=
  let raw := jsTrim input
  let bw : List Char × Option ParsedConditionalWorkflow :=
    match matchAnchored askFullPat input with
    | some caps =>
      let baseCommand := (capGet caps 1).getD []
      let expectedResponse :=
        if jsLower ((capGet caps 2).getD []) = str "yes" then ExpectedResponse.yes
        else ExpectedResponse.no
      let askMessage :=
        (findCap msgIfPat 1 baseCommand).map (fun m => stripTrailingQ m ++ str "?")
      (baseCommand,
       some { conditionType := .patient_response,
              conditionParams := { expectedResponse := some expectedResponse },
              thenCommand := jsTrim ((capGet caps 3).getD []),
              elseCommand := (capGet caps 4).map jsTrim,
              askMessage := askMessage })
    | none =>
      match matchAnchored labFullPat input with
      | some caps =>
        let labName := jsLower ((capGet caps 1).getD [])
        ([],
         some { conditionType := .lab_value,
                conditionParams :=
                  { labCode := (labCodeMap.find? (fun e => e.1 = labName)).map (fun e => e.2),
                    operator := some (opOfChars ((capGet caps 2).getD [])),
                    value := some (parseJsFloat ((capGet caps 3).getD [])) },
                thenCommand := jsTrim ((capGet caps 4).getD []),
                elseCommand := (capGet caps 5).map jsTrim })
      | none =>
        match matchAnchored resultEmptyFullPat input with
        | some caps =>
          (jsTrim ((capGet caps 1).getD []),
           some { conditionType := .result_empty, conditionParams := {},
                  thenCommand := jsTrim ((capGet caps 2).getD []),
                  elseCommand := (capGet caps 3).map jsTrim })
        | none =>
          match matchAnchored genericFullPat input with
          | some caps =>
            ((capGet caps 1).getD [],
             some { conditionType := .patient_response,
                    conditionParams :=
                      { expectedResponse :=
                          some (if jsIncludes (str "yes") (jsLower ((capGet caps 2).getD []))
                                then ExpectedResponse.yes else ExpectedResponse.no) },
                    thenCommand := (capGet caps 3).getD [],
                    elseCommand := capGet caps 4 })
          | none => (input, none)
  match (if bw.1.isEmpty then none else parseSingleCommand bw.1) with
  | none => { action := .workflow, resource := .workflow, params := {}, raw := raw,
              workflow := bw.2 }
  | some parsed => { parsed with raw := raw, workflow := bw.2 }

/-- parseCompoundCommand of the source: compile every segment and inherit
the patient context forward. -/
def parseCompoundCommand (input : List Char) : List ParsedCommand :=
  let parts := splitCompoundCommand input
  (parts.foldl
    (fun (st : List ParsedCommand × Option (List Char) × Option (List Char)) part =>
      match parseSingleCommand part with
      | some parsed0 =>
        let parsed :=
          if jsTruthyStr parsed0.params.patientName = false ∧
             jsTruthyStr parsed0.params.patientId = false ∧
             jsTruthyB parsed0.params.useActivePatient = false ∧
             (jsTruthyStr st.2.1 || jsTruthyStr st.2.2) = true then
            { parsed0 with params := { parsed0.params with useActivePatient := some true } }
          else parsed0
        let inhName :=
          if jsTruthyStr parsed.params.patientName then parsed.params.patientName else st.2.1
        let inhId :=
          if jsTruthyStr parsed.params.patientId then parsed.params.patientId else st.2.2
        (st.1 ++ [parsed], inhName, inhId)
      | none => st)
    ([], none, none)).1

/-- The result type of parseCommand: a single command, an ordered chain,
or null. -/
inductive ParseResult
  | nothing
  | single (c : ParsedCommand)
  | multiple (cs : List ParsedCommand)
deriving DecidableEq, Repr

/-- parseCommand of the source. -/
def parseCommand (input : List Char) : ParseResult :=
  let trimmed := jsTrim input
  if trimmed.isEmpty then .nothing
  else if isConditionalWorkflow trimmed then .single (parseConditionalWorkflowCommand trimmed)
  else if isCompoundCommand trimmed then .multiple (parseCompoundCommand trimmed)
  else
    match parseSingleCommand trimmed with
    | some c => .single c
    | none => .nothing

/-!  extractTime and extractSpecialty of the source.  -/

/-- The fixed specialty vocabulary, in declaration order. -/
def specialtiesList : List (List Char) :=
  [str "nephrology", str "cardiology", str "neurology", str "oncology", str "endocrinology",
   str "gastroenterology", str "pulmonology", str "rheumatology", str "hematology",
   str "infectious disease", str "dermatology", str "psychiatry", str "urology",
   str "orthopedics", str "ophthalmology", str "otolaryngology", str "ent"]

/-- charAt(0).toUpperCase() plus slice(1). -/
def capitalizeFirst (s : List Char) : List Char :=
  match s with
  | c :: rest => upperChar c :: rest
  | [] => []

/-- extractSpecialty of the source. -/
def extractSpecialty (input : List Char) : Option (List Char) :=
  let normalized := jsLower input
  match specialtiesList.find? (fun sp => jsIncludes sp normalized) with
  | some sp => some (capitalizeFirst sp)
  | none => (findCap flagSpecPat 1 input).map capitalizeFirst

/-- extractTime of the source, abstracted to the 24-hour time of day it
computes; the source then embeds that time into an ISO timestamp of the
current date, which is real time and is not modelled. -/
def extractTime (input : List Char) : Option (Nat × Nat) :=
  match regexFind timePat input with
  | none => none
  | some caps =>
    let hours0 := digitsToNat ((capGet caps 1).getD [])
    let minutes := match capGet caps 2 with | some m => digitsToNat m | none => 0
    let meridiem := (capGet caps 3).map jsLower
    let hours :=
      if meridiem = some (str "pm") ∧ hours0 ≠ 12 then hours0 + 12
      else if meridiem = some (str "am") ∧ hours0 = 12 then 0
      else hours0
    some (hours, minutes)

/-!  Workflow engine data model (src/workflow.ts).  -/

/-- Workflow lifecycle status. -/
inductive WStatus
  | pending | ready | completed | failed
deriving DecidableEq, Repr

/-- type WorkflowCondition of the source. -/
inductive WorkflowCondition
  | patient_response (expectedResponse : ExpectedResponse) (patientId message : List Char)
  | lab_value (code : List Char) (operator : CmpOp) (value : ℚ) (patientId : List Char)
  | result_empty
  | result_count (operator : CmpOp) (count : ℚ)
  | always_true
deriving DecidableEq, Repr

/-- The newTime value of a reschedule action: either the parsed time of
day, or the current timestamp default.  The source stores an ISO string
of the current date; the calendar date is real time and is abstracted. -/
inductive NewTime
  | atTime (hours minutes : Nat)
  | now
deriving DecidableEq, Repr

/-- type WorkflowAction of the source. -/
inductive WorkflowAction
  | show_meds (patientId : List Char)
  | show_labs (patientId : List Char) (labCode : Option (List Char))
  | add_medication (patientId medicationName : List Char) (dose : Option (List Char))
  | reschedule_appointment (appointmentId : List Char) (newTime : NewTime)
  | flag_for_specialty (patientId specialty : List Char) (reason : Option (List Char))
  | send_message (patientId message : List Char)
  | create_note (patientId content : List Char) (noteType : Option (List Char))
  | execute_command (command : ParsedCommand)
  | log (message : List Char)
  | noop
deriving DecidableEq, Repr

/-- interface ConditionalWorkflow of the source; createdAt is an abstract
timestamp. -/
structure ConditionalWorkflow where
  id : List Char
  condition : WorkflowCondition
  thenAction : WorkflowAction
  elseAction : Option WorkflowAction := none
  description : Option (List Char) := none
  createdAt : Nat := 0
  status : WStatus
deriving DecidableEq, Repr

/-- A recorded patient response (the value type of the patientResponses
map). -/
structure ResponseRecord where
  response : List Char
  timestamp : Nat
deriving DecidableEq, Repr

/-- The value of the untyped lastResult field of the workflow context,
reduced to the distinctions the condition evaluator makes: undefined,
null, an array of a known length, or any other value. -/
inductive JsVal
  | undef | nullV | arr (len : Nat) | other
deriving DecidableEq, Repr

/-- interface WorkflowContext of the source, without the client field
(the client is passed separately as the environment). -/
structure WorkflowContext where
  patientId : Option (List Char) := none
  patientName : Option (List Char) := none
  lastResult : JsVal := .undef
  lastResultCount : Option ℚ := none
  patientResponse : Option (List Char) := none
deriving DecidableEq, Repr

/-- Outcome of executeAction (the data payload of the source result is
not inspected by any claim and is omitted). -/
structure ActionResult where
  success : Bool
  message : List Char
deriving DecidableEq, Repr

/-- Which branch a workflow execution ran. -/
inductive ActionBranch
  | thenB | elseB | noneB
deriving DecidableEq, Repr

/-- interface WorkflowResult of the source (without the data payload). -/
structure WorkflowResult where
  success : Bool
  conditionMet : Bool
  actionExecuted : ActionBranch
  message : List Char
  error : Option (List Char) := none
deriving DecidableEq, Repr

/-- The external FHIR client, abstracted to the calls the engine makes.
Each call either returns a value or throws (the error side). -/
structure ClientEnv where
  getPatientLabs : List Char → Option (List Char) → Except (List Char) (List (Option ℚ))
  getPatientMedications : List Char → Except (List Char) Nat
  addMedication : List Char → List Char → Option (List Char) → Except (List Char) (List Char)
  rescheduleAppointment : List Char → NewTime → Except (List Char) Unit
  createNote : List Char → List Char → Option (List Char) → Except (List Char) (List Char)

/-- The mutable module state of src/workflow.ts: the two process-wide
maps (as insertion-ordered association lists, the JavaScript Map
semantics), plus the set of removal timers armed by successful pending
checks. -/
structure EngineState where
  pendingWorkflows : List (List Char × ConditionalWorkflow) := []
  patientResponses : List (List Char × ResponseRecord) := []
  scheduledRemovals : List (List Char) := []
deriving DecidableEq, Repr

/-- Map.get on an association list. -/
def alistGet {α : Type} : List (List Char × α) → List Char → Option α
  | [], _ => none
  | e :: rest, k => if e.1 = k then some e.2 else alistGet rest k

/-- Map.set on an association list: replace the first binding of the key
in place, or append a new binding. -/
def alistSet {α : Type} (l : List (List Char × α)) (k : List Char) (v : α) :
    List (List Char × α) :=
  match l with
  | [] => [(k, v)]
  | e :: rest => if e.1 = k then (k, v) :: rest else e :: alistSet rest k v

/-- Map.delete on an association list. -/
def alistDel {α : Type} (l : List (List Char × α)) (k : List Char) : List (List Char × α) :=
  match l with
  | [] => []
  | e :: rest => if e.1 = k then rest else e :: alistDel rest k

/-!  Engine operations.  -/

/-- setPendingWorkflow of the source: store the workflow under the id,
resetting its status to pending. -/
def setPendingWorkflow (id : List Char) (workflow : ConditionalWorkflow)
    (st : EngineState) : EngineState :=
  { st with pendingWorkflows :=
      alistSet st.pendingWorkflows id { workflow with status := .pending } }

/-- getPendingWorkflow of the source. -/
def getPendingWorkflow (id : List Char) (st : EngineState) : Option ConditionalWorkflow :=
  alistGet st.pendingWorkflows id

/-- removePendingWorkflow of the source. -/
def removePendingWorkflow (id : List Char) (st : EngineState) : Bool × EngineState :=
  ((alistGet st.pendingWorkflows id).isSome,
   { st with pendingWorkflows := alistDel st.pendingWorkflows id })

/-- getAllPendingWorkflows of the source. -/
def getAllPendingWorkflows (st : EngineState) : List ConditionalWorkflow :=
  st.pendingWorkflows.map (fun e => e.2)

/-- recordPatientResponse of the source: lower-case, trim, overwrite. -/
def recordPatientResponse (patientId response : List Char) (now : Nat)
    (st : EngineState) : EngineState :=
  { st with patientResponses :=
      alistSet st.patientResponses patientId ⟨jsTrim (jsLower response), now⟩ }

/-- getPatientResponse of the source. -/
def getPatientResponse (patientId : List Char) (st : EngineState) : Option ResponseRecord :=
  alistGet st.patientResponses patientId

/-- clearPatientResponse of the source. -/
def clearPatientResponse (patientId : List Char) (st : EngineState) : EngineState :=
  { st with patientResponses := alistDel st.patientResponses patientId }

/-- The affirmative word set of the condition evaluator. -/
def yesWords : List (List Char) :=
  [str "yes", str "y", str "yeah", str "yep", str "sure", str "ok", str "okay",
   str "confirmed", str "approve", str "accept"]

/-- The negative word set of the condition evaluator. -/
def noWords : List (List Char) :=
  [str "no", str "n", str "nope", str "nah", str "decline", str "reject", str "cancel"]

/-- compareValues of the source. -/
def compareValues (actual : ℚ) (operator : CmpOp) (expected : ℚ) : Bool :=
  match operator with
  | .gt => actual > expected
  | .lt => actual < expected
  | .eqc => actual = expected
  | .ge => actual ≥ expected
  | .le => actual ≤ expected

/-- evaluateCondition of the source.  The error side of the Except value
models a rejected client call propagating out of the evaluator; the
patient_response branch reads the response registry and never throws. -/
def evaluateCondition (env : ClientEnv) (condition : WorkflowCondition)
    (context : WorkflowContext) (st : EngineState) :
    Except (List Char) Bool × EngineState :=
  match condition with
  | .always_true => (.ok true, st)
  | .patient_response expectedResponse patientId _ =>
    match getPatientResponse patientId st with
    | none => (.ok false, st)
    | some response =>
      let normalizedResponse := jsLower response.response
      match expectedResponse with
      | .any => (.ok true, st)
      | .yes => (.ok (yesWords.any (fun word => jsIncludes word normalizedResponse)), st)
      | .no => (.ok (noWords.any (fun word => jsIncludes word normalizedResponse)), st)
  | .lab_value code operator value patientId =>
    match env.getPatientLabs patientId (some code) with
    | .error e => (.error e, st)
    | .ok labs =>
      match labs with
      | [] => (.ok false, st)
      | latest :: _ =>
        match latest with
        | none => (.ok false, st)
        | some labValue => (.ok (compareValues labValue operator value), st)
  | .result_empty =>
    match context.lastResultCount with
    | some c => (.ok (decide (c = 0)), st)
    | none =>
      match context.lastResult with
      | .arr len => (.ok (decide (len = 0)), st)
      | .nullV => (.ok true, st)
      | .undef => (.ok true, st)
      | .other => (.ok false, st)
  | .result_count operator cnt =>
    let c : ℚ :=
      match context.lastResultCount with
      | some c => c
      | none => match context.lastResult with | .arr len => mkRat len 1 | _ => 0
    (.ok (compareValues c operator cnt), st)

/-- Decimal digits of a number, for the result messages. -/
def natChars (n : Nat) : List Char := (Nat.repr n).data

/-- Rendering of a newTime value inside a result message (the source
interpolates an ISO string; the exact text is not inspected by any
claim). -/
def newTimeChars (t : NewTime) : List Char :=
  match t with
  | .atTime h m => natChars h ++ str ":" ++ natChars m
  | .now => str "now"

/-- The body of the referral note created by a flag action (the source
also interpolates the current timestamp, which is real time and is
omitted). -/
def flagNoteContent (specialty : List Char) (reason : Option (List Char)) : List Char :=
  str "SPECIALTY REFERRAL FLAG Specialty: " ++ specialty ++ str " Reason: " ++
    (match reason with | some r => r | none => str "Per clinical workflow")

/-- executeAction of the source: the try block around the switch catches
any thrown client error and reports it as a failed result. -/
def executeAction (env : ClientEnv) (action : WorkflowAction) (st : EngineState) :
    ActionResult × EngineState :=
  match action with
  | .show_meds patientId =>
    match env.getPatientMedications patientId with
    | .ok n => (⟨true, str "Retrieved " ++ natChars n ++ str " medication(s)"⟩, st)
    | .error e => (⟨false, str "Action failed: " ++ e⟩, st)
  | .show_labs patientId labCode =>
    match env.getPatientLabs patientId labCode with
    | .ok labs => (⟨true, str "Retrieved " ++ natChars labs.length ++ str " lab result(s)"⟩, st)
    | .error e => (⟨false, str "Action failed: " ++ e⟩, st)
  | .add_medication patientId medicationName dose =>
    match env.addMedication patientId medicationName dose with
    | .ok medId =>
      (⟨true, str "Added medication: " ++ medicationName ++ str " (ID: " ++ medId ++ str ")"⟩, st)
    | .error e => (⟨false, str "Action failed: " ++ e⟩, st)
  | .reschedule_appointment appointmentId newTime =>
    match env.rescheduleAppointment appointmentId newTime with
    | .ok _ => (⟨true, str "Rescheduled appointment to " ++ newTimeChars newTime⟩, st)
    | .error e => (⟨false, str "Action failed: " ++ e⟩, st)
  | .flag_for_specialty patientId specialty reason =>
    match env.createNote patientId (flagNoteContent specialty reason)
        (some (str "Referral Request")) with
    | .ok _ => (⟨true, str "Patient flagged for " ++ specialty ++ str " review"⟩, st)
    | .error e => (⟨false, str "Action failed: " ++ e⟩, st)
  | .send_message _ message =>
    (⟨true, str "Message queued for patient: \"" ++ message ++ str "\""⟩, st)
  | .create_note patientId content noteType =>
    match env.createNote patientId content noteType with
    | .ok noteId => (⟨true, str "Created note (ID: " ++ noteId ++ str ")"⟩, st)
    | .error e => (⟨false, str "Action failed: " ++ e⟩, st)
  | .log message => (⟨true, message⟩, st)
  | .noop => (⟨true, str "No action taken"⟩, st)
  | .execute_command command => (⟨true, str "Executing command: " ++ command.raw⟩, st)

/-- executeWorkflow of the source: evaluate the condition, pick the then
or else action, execute it; the surrounding try block turns a thrown
condition evaluation into a failed result. -/
def executeWorkflow (env : ClientEnv) (workflow : ConditionalWorkflow)
    (context : WorkflowContext) (st : EngineState) : WorkflowResult × EngineState :=
  match evaluateCondition env workflow.condition context st with
  | (.error e, st1) =>
    ({ success := false, conditionMet := false, actionExecuted := .noneB,
       message := str "Workflow execution failed", error := some e }, st1)
  | (.ok conditionMet, st1) =>
    let actionToExecute := if conditionMet then some workflow.thenAction else workflow.elseAction
    match actionToExecute with
    | none =>
      ({ success := true, conditionMet := conditionMet, actionExecuted := .noneB,
         message :=
           if conditionMet then str "Condition met, but no action defined"
           else str "Condition not met, no else action defined" }, st1)
    | some act =>
      let r := executeAction env act st1
      ({ success := r.1.success, conditionMet := conditionMet,
         actionExecuted := if conditionMet then .thenB else .elseB,
         message := r.1.message,
         error := if r.1.success then none else some r.1.message }, r.2)

/-- The context a pending check builds for one workflow, or none when the
workflow must keep waiting (a patient_response condition with no recorded
response). -/
def entryCtx (st : EngineState) (wf : ConditionalWorkflow) : Option WorkflowContext :=
  match wf.condition with
  | .patient_response _ pid _ =>
    match getPatientResponse pid st with
    | none => none
    | some r => some { patientResponse := some r.response }
  | _ => some {}

/-- One iteration of the checkPendingWorkflows loop, for the snapshot
entry (id, wf): skip non-pending and still-waiting workflows; otherwise
mark ready, execute, mark completed or failed, arm the removal timer on
success, and consume the patient response. -/
def checkStep (env : ClientEnv) (st : EngineState) (id : List Char)
    (wf : ConditionalWorkflow) : Option WorkflowResult × EngineState :=
  if wf.status ≠ .pending then (none, st) else
  match entryCtx st wf with
  | none => (none, st)
  | some ctx =>
    let wf1 := { wf with status := .ready }
    let st1 := { st with pendingWorkflows := alistSet st.pendingWorkflows id wf1 }
    let r := executeWorkflow env wf1 ctx st1
    let wf2 := { wf1 with status := if r.1.success then .completed else .failed }
    let st3 := { r.2 with pendingWorkflows := alistSet r.2.pendingWorkflows id wf2 }
    let st4 :=
      if r.1.success then { st3 with scheduledRemovals := st3.scheduledRemovals ++ [id] }
      else st3
    let st5 :=
      match wf.condition with
      | .patient_response _ pid _ => clearPatientResponse pid st4
      | _ => st4
    (some r.1, st5)

/-- Left-to-right fold of the pending check over the snapshot entry
list. -/
def checkAux (env : ClientEnv) :
    List (List Char × ConditionalWorkflow) → EngineState →
    List WorkflowResult × EngineState
  | [], st => ([], st)
  | (id, wf) :: rest, st =>
    match checkStep env st id wf with
    | (none, st1) => checkAux env rest st1
    | (some r, st1) =>
      let t := checkAux env rest st1
      (r :: t.1, t.2)

/-- checkPendingWorkflows of the source: iterate over the entries of the
pending map (the loop only ever rewrites the entry it is visiting, so the
iteration sequence is the entry list at the start of the scan). -/
def checkPendingWorkflows (env : ClientEnv) (st : EngineState) :
    List WorkflowResult × EngineState :=
  checkAux env st.pendingWorkflows st

/-- A removal timer armed by a successful check fires: the workflow
leaves the store. -/
def fireScheduledRemoval (id : List Char) (st : EngineState) : EngineState :=
  if st.scheduledRemovals.contains id then
    { st with pendingWorkflows := alistDel st.pendingWorkflows id,
              scheduledRemovals := st.scheduledRemovals.filter (fun x => x ≠ id) }
  else st

/-- createWorkflow of the source; the fresh id and the current timestamp
are parameters (the source draws them from the clock and a random
generator). -/
def createWorkflow (id : List Char) (now : Nat) (condition : WorkflowCondition)
    (thenAction : WorkflowAction) (elseAction : Option WorkflowAction)
    (description : Option (List Char)) : ConditionalWorkflow :=
  { id := id, condition := condition, thenAction := thenAction, elseAction := elseAction,
    description := description, createdAt := now, status := .pending }

/-- The operations of the workflow engine surface, for reasoning about
arbitrary operation sequences. -/
inductive EngineOp
  | setPending (id : List Char) (workflow : ConditionalWorkflow)
  | removePending (id : List Char)
  | record (patientId response : List Char) (now : Nat)
  | clearResponse (patientId : List Char)
  | checkPending (env : ClientEnv)
  | executeWf (env : ClientEnv) (workflow : ConditionalWorkflow) (context : WorkflowContext)
  | fireRemoval (id : List Char)

/-- State transition of one engine operation (returned values are
discarded). -/
def applyOp (op : EngineOp) (st : EngineState) : EngineState :=
  match op with
  | .setPending id wf => setPendingWorkflow id wf st
  | .removePending id => (removePendingWorkflow id st).2
  | .record pid r now => recordPatientResponse pid r now st
  | .clearResponse pid => clearPatientResponse pid st
  | .checkPending env => (checkPendingWorkflows env st).2
  | .executeWf env wf ctx => (executeWorkflow env wf ctx st).2
  | .fireRemoval id => fireScheduledRemoval id st

/-- State after a sequence of engine operations. -/
def applyOps (ops : List EngineOp) (st : EngineState) : EngineState :=
  ops.foldl (fun s op => applyOp op s) st

/-!  Session layer (src/session.ts) and the select branch of the
dispatcher (src/index.ts).  -/

/-- The session state: active patient and last search results, both
initially undefined. -/
structure Session where
  activePatient : Option (List Char × List Char) := none
  lastSearchResults : Option (List (List Char × List Char)) := none
deriving DecidableEq, Repr

/-- setActivePatient of the source. -/
def setActivePatient (id name : List Char) (sess : Session) : Session :=
  { sess with activePatient := some (id, name) }

/-- getPatientFromIndex of the source: null unless 1 le index le length. -/
def getPatientFromIndex (sess : Session) (index : Int) : Option (List Char × List Char) :=
  match sess.lastSearchResults with
  | none => none
  | some results =>
    if index < 1 ∨ index > results.length then none
    else results[(index - 1).toNat]?

/-- interface CommandContext of the source. -/
structure CommandContext where
  patientId : Option (List Char) := none
  patientName : Option (List Char) := none
  lastResults : Option (List (List Char × List Char)) := none
deriving DecidableEq, Repr

/-- What the modelled fragment of executeSingleCommand did. -/
inductive SelectResult
  | helpShown
  | invalidIndex
  | selected (id name : List Char)
  | invalidSelection
  | notHandled
deriving DecidableEq, Repr

/-- The help guard and the select branch of executeSingleCommand
(src/index.ts).  The later dispatcher branches call external
collaborators and are outside this fragment; a command that falls past
the select branch yields notHandled with the session untouched. -/
def executeSelectFragment (parsed : ParsedCommand) (context : Option CommandContext)
    (sess : Session) : SelectResult × Option CommandContext × Session :=
  if parsed.action = ActionType.help ∨ jsLower parsed.raw = str "help" then
    (.helpShown, none, sess)
  else
    match parsed.action, parsed.params.index with
    | .select, some n =>
      if n < 1 then (.invalidIndex, none, sess)
      else
        let fromCtx : Option (List Char × List Char) :=
          match context with
          | some c =>
            match c.lastResults with
            | some rs =>
              if rs.length > 0 then
                let idx := n - 1
                if 0 ≤ idx ∧ idx < rs.length then rs[idx.toNat]? else none
              else none
            | none => none
          | none => none
        let patient :=
          match fromCtx with
          | some p => some p
          | none => getPatientFromIndex sess n
        match patient with
        | some (id, name) =>
          (.selected id name, some { patientId := some id, patientName := some name },
           setActivePatient id name sess)
        | none => (.invalidSelection, none, sess)
    | _, _ => (.notHandled, none, sess)

/-!  buildWorkflowAction of src/index.ts.  -/

def moveTestPat : Pat := pseq [Pat.wordB, palts ["move", "reschedule"], Pat.wordB]

def flagTestPat : Pat := pseq [Pat.wordB, plit "flag", pw, Pat.opt (pseq [plit "for", pw])]

def addCmdPat : Pat := pseq [Pat.wordB, plit "add", pw, Pat.grp 1 (Pat.plusG isAZChar)]

def showMedsPat : Pat :=
  pseq [Pat.wordB, plit "show", pw, Pat.opt (pseq [plit "their", pw]), plit "med",
    Pat.opt (plit "s"), Pat.wordB]

def showLabsPat : Pat :=
  pseq [Pat.wordB, plit "show", pw, Pat.opt (pseq [plit "their", pw]), plit "lab",
    Pat.opt (plit "s"), Pat.wordB]

def sendTestPat : Pat := pseq [Pat.wordB, palts ["send", "message", "notify"], Pat.wordB]

def createNotePat : Pat :=
  pseq [Pat.wordB, palts ["create", "draft"], pw, Pat.opt (pseq [plit "a", pw]), plit "note",
    Pat.wordB]

/-- buildWorkflowAction of the source: ordered keyword tests over the
lower-cased trimmed branch text, falling back to a log action. -/
def buildWorkflowAction (commandStr : List Char) (patientId : Option (List Char)) :
    WorkflowAction :=
  let normalized := jsTrim (jsLower commandStr)
  let pid := patientId.getD []
  if regexTest moveTestPat normalized then
    .reschedule_appointment []
      (match extractTime commandStr with
       | some (h, m) => .atTime h m
       | none => .now)
  else if regexTest flagTestPat normalized then
    .flag_for_specialty pid ((extractSpecialty commandStr).getD (str "Review")) none
  else
    match findCap addCmdPat 1 normalized with
    | some m => .add_medication pid m none
    | none =>
      if regexTest showMedsPat normalized then .show_meds pid
      else if regexTest showLabsPat normalized then .show_labs pid none
      else if regexTest sendTestPat normalized then .send_message pid commandStr
      else if regexTest createNotePat normalized then .create_note pid commandStr none
      else .log (str "Action: " ++ commandStr)

/-!  Derived notions used by the statements about the engine.  -/

/-- The patient id a condition waits on (patient_response conditions
only). -/
def condPid (cond : WorkflowCondition) : Option (List Char) :=
  match cond with
  | .patient_response _ pid _ => some pid
  | _ => none

/-- Status of the stored workflow under an id. -/
def statusAt (st : EngineState) (id : List Char) : Option WStatus :=
  (alistGet st.pendingWorkflows id).map (fun w => w.status)

/-- The store keys are pairwise distinct (always true of a JavaScript
Map; association lists admit more states, so the invariant is carried as
a hypothesis). -/
def KeysND (st : EngineState) : Prop :=
  (st.pendingWorkflows.map (fun e => e.1)).Nodup

/-- What a pending scan does with one snapshot workflow, computed against
the scan-start state: none when the workflow is skipped (not pending, or
still waiting for a response), otherwise the result of executing it. -/
def scanOutcome (env : ClientEnv) (st : EngineState) (wf : ConditionalWorkflow) :
    Option WorkflowResult :=
  if wf.status ≠ .pending then none else
  match entryCtx st wf with
  | none => none
  | some ctx => some (executeWorkflow env { wf with status := .ready } ctx st).1

/-- The stored workflow after a pending scan: untouched when skipped,
otherwise completed or failed according to its own result. -/
def postWf (env : ClientEnv) (st : EngineState) (wf : ConditionalWorkflow) :
    ConditionalWorkflow :=
  match scanOutcome env st wf with
  | none => wf
  | some r => { wf with status := if r.success then .completed else .failed }

/-- The removal timer an entry arms during a scan: only successfully
completed workflows are scheduled. -/
def schedKey (env : ClientEnv) (st : EngineState)
    (e : List Char × ConditionalWorkflow) : Option (List Char) :=
  match scanOutcome env st e.2 with
  | some r => if r.success then some e.1 else none
  | none => none

/-- The patient ids that pending patient_response entries wait on. -/
def pendingPids (entries : List (List Char × ConditionalWorkflow)) : List (List Char) :=
  entries.filterMap (fun e => if e.2.status = .pending then condPid e.2.condition else none)

/-- Whether an operation is a setPendingWorkflow call on the given id. -/
def setsId (id : List Char) : EngineOp → Prop
  | .setPending i _ => i = id
  | _ => False

/-!  Concrete sample values used by the witnesses.  -/

/-- An environment in which every client call succeeds. -/
def okEnv : ClientEnv :=
  { getPatientLabs := fun _ _ => .ok [],
    getPatientMedications := fun _ => .ok 0,
    addMedication := fun _ _ _ => .ok (str "med1"),
    rescheduleAppointment := fun _ _ => .ok (),
    createNote := fun _ _ _ => .ok (str "note1") }

/-- An environment in which the lab fetch throws. -/
def errEnv : ClientEnv :=
  { okEnv with getPatientLabs := fun _ _ => .error (str "lab fetch failed") }

/-- A pending workflow awaiting a yes from patient p1. -/
def wfSample : ConditionalWorkflow :=
  { id := str "w1", condition := .patient_response .yes (str "p1") (str "ok to move?"),
    thenAction := .noop, status := .pending }

/-- A pending workflow whose lab condition makes the client call throw
under errEnv. -/
def wfLabSample : ConditionalWorkflow :=
  { id := str "f1", condition := .lab_value (str "2160-0") .gt 2 (str "p2"),
    thenAction := .noop, status := .pending }

/-- A pending workflow that always completes. -/
def wfAlwaysSample : ConditionalWorkflow :=
  { id := str "g1", condition := .always_true, thenAction := .noop, status := .pending }

/-- Scenario state: wfSample registered and a yes response recorded. -/
def demoState0 : EngineState :=
  recordPatientResponse (str "p1") (str "yes") 0
    (setPendingWorkflow (str "w1") wfSample {})

/-- Scenario state: after one pending scan (w1 is completed and retained
until its removal timer fires). -/
def demoState1 : EngineState := (checkPendingWorkflows okEnv demoState0).2

/-- Scenario state: setPendingWorkflow called again with the id of the
completed workflow. -/
def demoState2 : EngineState := setPendingWorkflow (str "w1") wfSample demoState1

/-- Scenario state for the error-containment claim: a workflow that will
fail followed by one that will succeed. -/
def demoStateC : EngineState :=
  { pendingWorkflows := [(str "f1", wfLabSample), (str "g1", wfAlwaysSample)] }

/-- The result record the failing lab workflow produces under errEnv. -/
def c8r : WorkflowResult :=
  { success := false, conditionMet := false, actionExecuted := .noneB,
    message := str "Workflow execution failed",
    error := some (str "lab fetch failed") }

/-!  Declarative readings of the compound-classification clauses.  -/

/-- A nonempty run of JavaScript whitespace. -/
def WsRun (w : List Char) : Prop := w ≠ [] ∧ ∀ c ∈ w, isJsWS c = true

/-- The characters spell the given lower-case word up to ASCII case. -/
def SpellsCI (t : List Char) (w : String) : Prop := t.map lowerChar = str w

/-- First clause, as the code has it: somewhere in the input, whitespace,
the word then, whitespace. -/
def ThenConnectorP (s : List Char) : Prop :=
  ∃ a w₁ t c b, s = a ++ w₁ ++ t ++ c :: b ∧ WsRun w₁ ∧ SpellsCI t "then" ∧ isJsWS c = true

/-- Second clause, as the code has it: a comma or semicolon, an optional
whitespace run, then a word character. -/
def PunctWordP (s : List Char) : Prop :=
  ∃ a p w c b, s = a ++ p :: (w ++ c :: b) ∧ (p = Char.ofNat 44 ∨ p = Char.ofNat 59) ∧
    (∀ x ∈ w, isJsWS x = true) ∧ isWordChar c = true

/-- Third clause: whitespace, the word and, whitespace, then one of the
chaining verbs. -/
def AndVerbP (s : List Char) : Prop :=
  ∃ a w₁ t w₂ v b, s = a ++ w₁ ++ t ++ w₂ ++ v ++ b ∧ WsRun w₁ ∧ SpellsCI t "and" ∧
    WsRun w₂ ∧ ∃ vb ∈ chainVerbs, SpellsCI v vb

/-- A comma or semicolon immediately followed by a character that is not
whitespace. -/
def hasPunctNonSpace : List Char → Bool
  | [] => false
  | c :: rest =>
    ((isCommaChar c || isSemiChar c) &&
      (match rest with | d :: _ => !isJsWS d | [] => false)) || hasPunctNonSpace rest

/-- The compound-classification test exactly as the specification
sentence words it (the comparison target for the classification claim):
a literal then substring, a comma or semicolon immediately followed by a
non-space character, or the word and followed by a chaining verb. -/
def specSentenceCompound (input : List Char) : Bool :=
  jsIncludes (str "then") input || hasPunctNonSpace input || regexTest rAndVerb input

/-!
Lemmas and theorems.
-/

/-!  Association-list lemmas.  -/

theorem alistGet_set_self {α : Type} (l : List (List Char × α)) (k : List Char) (v : α) :
    alistGet (alistSet l k v) k = some v := by
  induction l with
  | nil => simp [alistSet, alistGet]
  | cons e rest ih =>
    by_cases h : e.1 = k
    · simp [alistSet, h, alistGet]
    · simp [alistSet, h, alistGet, ih]

theorem alistGet_set_ne {α : Type} (l : List (List Char × α)) (k k' : List Char) (v : α)
    (h : k' ≠ k) : alistGet (alistSet l k v) k' = alistGet l k' := by
  have hnk : ¬(k = k') := fun hh => h hh.symm
  induction l with
  | nil =>
    simp only [alistSet, alistGet]
    rw [if_neg hnk]
  | cons e rest ih =>
    by_cases he : e.1 = k
    · subst he
      simp only [alistSet, eq_self_iff_true, if_true]
      simp only [alistGet]
      rw [if_neg hnk, if_neg hnk]
    · simp only [alistSet, if_neg he, alistGet, ih]

theorem alistGet_del_ne {α : Type} (l : List (List Char × α)) (k k' : List Char)
    (h : k' ≠ k) : alistGet (alistDel l k) k' = alistGet l k' := by
  have hnk : ¬(k = k') := fun hh => h hh.symm
  induction l with
  | nil => simp [alistDel]
  | cons e rest ih =>
    by_cases he : e.1 = k
    · subst he
      simp only [alistDel, eq_self_iff_true, if_true]
      rw [alistGet, if_neg hnk]
    · simp only [alistDel, if_neg he, alistGet, ih]

theorem alistGet_eq_none_iff {α : Type} (l : List (List Char × α)) (k : List Char) :
    alistGet l k = none ↔ ∀ e ∈ l, e.1 ≠ k := by
  induction l with
  | nil => simp [alistGet]
  | cons e rest ih =>
    by_cases he : e.1 = k
    · rw [alistGet, if_pos he]
      simp only [List.forall_mem_cons]
      constructor
      · intro h
        exact Option.noConfusion h
      · intro h
        exact absurd he h.1
    · rw [alistGet, if_neg he, ih]
      simp only [List.forall_mem_cons]
      constructor
      · intro h
        exact ⟨he, h⟩
      · intro h
        exact h.2

theorem alistGet_some_mem {α : Type} (l : List (List Char × α)) (k : List Char) (v : α)
    (h : alistGet l k = some v) : (k, v) ∈ l := by
  induction l with
  | nil => exact Option.noConfusion h
  | cons e rest ih =>
    by_cases he : e.1 = k
    · rw [alistGet, if_pos he] at h
      have hv := Option.some.inj h
      have hekv : e = (k, v) := by
        obtain ⟨a, b⟩ := e
        simp only at he hv
        rw [he, hv]
      rw [← hekv]
      exact List.mem_cons_self e rest
    · rw [alistGet, if_neg he] at h
      exact List.mem_cons_of_mem _ (ih h)

theorem alistGet_of_mem_nodup {α : Type} (l : List (List Char × α)) (k : List Char) (v : α)
    (hnd : (l.map (fun e => e.1)).Nodup) (h : (k, v) ∈ l) : alistGet l k = some v := by
  induction l with
  | nil => exact absurd h (List.not_mem_nil _)
  | cons e rest ih =>
    rw [List.map_cons] at hnd
    obtain ⟨hnd1, hnd2⟩ := List.nodup_cons.mp hnd
    rcases List.mem_cons.mp h with he | hm
    · rw [← he]
      simp [alistGet]
    · have hk : e.1 ≠ k := by
        intro hek
        exact hnd1 (by rw [hek]; exact List.mem_map.mpr ⟨(k, v), hm, rfl⟩)
      rw [alistGet, if_neg hk]
      exact ih hnd2 hm

theorem alistSet_alistSet {α : Type} (l : List (List Char × α)) (k : List Char) (v v' : α) :
    alistSet (alistSet l k v) k v' = alistSet l k v' := by
  induction l with
  | nil => simp [alistSet]
  | cons e rest ih =>
    by_cases he : e.1 = k
    · simp [alistSet, he]
    · simp [alistSet, he, ih]

theorem keys_alistSet_of_mem {α : Type} (l : List (List Char × α)) (k : List Char) (v : α)
    (h : k ∈ l.map (fun e => e.1)) :
    (alistSet l k v).map (fun e => e.1) = l.map (fun e => e.1) := by
  induction l with
  | nil => exact absurd h (List.not_mem_nil _)
  | cons e rest ih =>
    by_cases he : e.1 = k
    · simp only [alistSet, he, eq_self_iff_true, if_true, List.map_cons]
    · have hm : k ∈ rest.map (fun x => x.1) := by
        rcases List.mem_map.mp h with ⟨x, hx, hk⟩
        rcases List.mem_cons.mp hx with hxe | hxm
        · exact absurd (hxe ▸ hk) he
        · exact List.mem_map.mpr ⟨x, hxm, hk⟩
      simp only [alistSet, if_neg he, List.map_cons, ih hm]

theorem keys_alistSet_of_not_mem {α : Type} (l : List (List Char × α)) (k : List Char) (v : α)
    (h : k ∉ l.map (fun e => e.1)) :
    (alistSet l k v).map (fun e => e.1) = l.map (fun e => e.1) ++ [k] := by
  induction l with
  | nil => simp [alistSet]
  | cons e rest ih =>
    have he : e.1 ≠ k := fun hek =>
      h (by rw [List.map_cons, hek]; exact List.mem_cons_self _ _)
    have hrest : k ∉ rest.map (fun x => x.1) := fun hm =>
      h (by rw [List.map_cons]; exact List.mem_cons_of_mem _ hm)
    simp only [alistSet, if_neg he, List.map_cons, ih hrest, List.cons_append]

theorem nodup_keys_alistSet {α : Type} (l : List (List Char × α)) (k : List Char) (v : α)
    (hnd : (l.map (fun e => e.1)).Nodup) :
    ((alistSet l k v).map (fun e => e.1)).Nodup := by
  by_cases h : k ∈ l.map (fun e => e.1)
  · rw [keys_alistSet_of_mem l k v h]
    exact hnd
  · rw [keys_alistSet_of_not_mem l k v h]
    rw [List.nodup_append]
    exact ⟨hnd, List.nodup_singleton _,
      fun a ha hb => h ((List.mem_singleton.mp hb) ▸ ha)⟩

theorem keys_alistDel_sublist {α : Type} (l : List (List Char × α)) (k : List Char) :
    ((alistDel l k).map (fun e => e.1)).Sublist (l.map (fun e => e.1)) := by
  induction l with
  | nil => simp [alistDel]
  | cons e rest ih =>
    by_cases he : e.1 = k
    · simp only [alistDel, if_pos he, List.map_cons]
      exact (List.sublist_cons_self _ _)
    · simp only [alistDel, if_neg he, List.map_cons]
      exact ih.cons₂ _

theorem nodup_keys_alistDel {α : Type} (l : List (List Char × α)) (k : List Char)
    (hnd : (l.map (fun e => e.1)).Nodup) :
    ((alistDel l k).map (fun e => e.1)).Nodup :=
  hnd.sublist (keys_alistDel_sublist l k)

theorem alistGet_del_self_of_nodup {α : Type} (l : List (List Char × α)) (k : List Char)
    (hnd : (l.map (fun e => e.1)).Nodup) : alistGet (alistDel l k) k = none := by
  induction l with
  | nil => simp [alistDel, alistGet]
  | cons e rest ih =>
    rw [List.map_cons] at hnd
    obtain ⟨hnd1, hnd2⟩ := List.nodup_cons.mp hnd
    by_cases he : e.1 = k
    · rw [alistDel, if_pos he]
      rw [alistGet_eq_none_iff]
      intro x hx hk
      exact hnd1 (by rw [he, ← hk]; exact List.mem_map.mpr ⟨x, hx, rfl⟩)
    · rw [alistDel, if_neg he, alistGet, if_neg he]
      exact ih hnd2

/-!  Frame lemmas: the executors never write the engine state.  -/

theorem evaluateCondition_state (env : ClientEnv) (cond : WorkflowCondition)
    (ctx : WorkflowContext) (st : EngineState) :
    (evaluateCondition env cond ctx st).2 = st := by
  cases cond <;> unfold evaluateCondition <;> (repeat' split) <;> rfl

theorem executeAction_state (env : ClientEnv) (act : WorkflowAction) (st : EngineState) :
    (executeAction env act st).2 = st := by
  cases act <;> unfold executeAction <;> (repeat' split) <;> rfl

theorem executeWorkflow_state (env : ClientEnv) (wf : ConditionalWorkflow)
    (ctx : WorkflowContext) (st : EngineState) :
    (executeWorkflow env wf ctx st).2 = st := by
  unfold executeWorkflow
  have h1 := evaluateCondition_state env wf.condition ctx st
  rcases hev : evaluateCondition env wf.condition ctx st with ⟨r, st1⟩
  rw [hev] at h1
  simp only at h1
  cases r with
  | error e => simpa using h1
  | ok met =>
    simp only
    rcases hact : (if met then some wf.thenAction else wf.elseAction) with _ | act
    · simpa using h1
    · simp only
      rw [executeAction_state env act st1]
      exact h1

theorem executeAction_fst_congr (env : ClientEnv) (act : WorkflowAction)
    (st st' : EngineState) :
    (executeAction env act st).1 = (executeAction env act st').1 := by
  cases act <;> unfold executeAction <;> (repeat' split) <;> rfl

theorem evaluateCondition_fst_congr (env : ClientEnv) (cond : WorkflowCondition)
    (ctx : WorkflowContext) (st st' : EngineState)
    (hag : ∀ pid, condPid cond = some pid →
      alistGet st.patientResponses pid = alistGet st'.patientResponses pid) :
    (evaluateCondition env cond ctx st).1 = (evaluateCondition env cond ctx st').1 := by
  cases cond with
  | patient_response e pid m =>
    have h := hag pid rfl
    simp only [evaluateCondition, getPatientResponse, h]
    cases alistGet st'.patientResponses pid <;> cases e <;> rfl
  | lab_value code op v pid =>
    simp only [evaluateCondition]
    rcases env.getPatientLabs pid (some code) with e | labs
    · rfl
    · rcases labs with _ | ⟨latest, tail⟩
      · rfl
      · rcases latest with _ | lv <;> rfl
  | result_empty =>
    simp only [evaluateCondition]
    rcases ctx.lastResultCount with _ | c
    · rcases ctx.lastResult <;> rfl
    · rfl
  | result_count op cnt =>
    simp only [evaluateCondition]
  | always_true =>
    simp only [evaluateCondition]

theorem executeWorkflow_fst_congr (env : ClientEnv) (wf : ConditionalWorkflow)
    (ctx : WorkflowContext) (st st' : EngineState)
    (hag : ∀ pid, condPid wf.condition = some pid →
      alistGet st.patientResponses pid = alistGet st'.patientResponses pid) :
    (executeWorkflow env wf ctx st).1 = (executeWorkflow env wf ctx st').1 := by
  unfold executeWorkflow
  have he := evaluateCondition_fst_congr env wf.condition ctx st st' hag
  rcases hev : evaluateCondition env wf.condition ctx st with ⟨r, s1⟩
  rcases hev' : evaluateCondition env wf.condition ctx st' with ⟨r', s2⟩
  rw [hev, hev'] at he
  simp only at he
  subst he
  cases r with
  | error e => rfl
  | ok met =>
    simp only
    rcases (if met then some wf.thenAction else wf.elseAction) with _ | act
    · rfl
    · simp only
      rw [executeAction_fst_congr env act s1 s2]

theorem entryCtx_congr (st st' : EngineState) (wf : ConditionalWorkflow)
    (hag : ∀ pid, condPid wf.condition = some pid →
      alistGet st.patientResponses pid = alistGet st'.patientResponses pid) :
    entryCtx st wf = entryCtx st' wf := by
  cases hc : wf.condition with
  | patient_response e pid m =>
    have h := hag pid (by rw [hc]; rfl)
    simp only [entryCtx, getPatientResponse, hc, h]
  | lab_value code op v pid => simp only [entryCtx, hc]
  | result_empty => simp only [entryCtx, hc]
  | result_count op cnt => simp only [entryCtx, hc]
  | always_true => simp only [entryCtx, hc]

theorem executeWorkflow_fail_error (env : ClientEnv) (wf : ConditionalWorkflow)
    (ctx : WorkflowContext) (st : EngineState) :
    (executeWorkflow env wf ctx st).1.success = false →
    (executeWorkflow env wf ctx st).1.error ≠ none := by
  unfold executeWorkflow
  rcases evaluateCondition env wf.condition ctx st with ⟨r, s1⟩
  cases r with
  | error e =>
    intro _
    simp
  | ok met =>
    simp only
    rcases (if met then some wf.thenAction else wf.elseAction) with _ | act
    · intro h
      simp at h
    · simp only
      intro h
      simp [h]

/-!  Pending-scan stability lemmas.  -/

theorem checkStep_skip (env : ClientEnv) (st : EngineState) (id : List Char)
    (wf : ConditionalWorkflow) (h : wf.status ≠ .pending) :
    checkStep env st id wf = (none, st) := by
  unfold checkStep
  rw [if_pos h]

theorem checkStep_get_ne (env : ClientEnv) (st : EngineState) (id : List Char)
    (wf : ConditionalWorkflow) (k : List Char) (hk : k ≠ id) :
    alistGet (checkStep env st id wf).2.pendingWorkflows k =
      alistGet st.pendingWorkflows k := by
  unfold checkStep
  split
  · rfl
  · split
    · rfl
    · simp only [executeWorkflow_state, clearPatientResponse]
      split <;> split <;>
        simp only [alistSet_alistSet] <;>
        rw [alistGet_set_ne _ _ _ _ hk]

theorem checkStep_keys (env : ClientEnv) (st : EngineState) (id : List Char)
    (wf : ConditionalWorkflow) (hid : id ∈ st.pendingWorkflows.map (fun e => e.1)) :
    (checkStep env st id wf).2.pendingWorkflows.map (fun e => e.1) =
      st.pendingWorkflows.map (fun e => e.1) := by
  unfold checkStep
  split
  · rfl
  · split
    · rfl
    · simp only [executeWorkflow_state, clearPatientResponse]
      split <;> split <;>
        simp only [alistSet_alistSet] <;>
        rw [keys_alistSet_of_mem _ _ _ hid]

theorem checkAux_get_stable (env : ClientEnv)
    (entries : List (List Char × ConditionalWorkflow)) (id : List Char) :
    ∀ st : EngineState, (∀ e ∈ entries, e.1 = id → e.2.status ≠ .pending) →
    alistGet (checkAux env entries st).2.pendingWorkflows id =
      alistGet st.pendingWorkflows id := by
  induction entries with
  | nil => intro st _; rfl
  | cons e rest ih =>
    intro st h
    obtain ⟨k, wf⟩ := e
    have hrest := fun x hx => h x (List.mem_cons_of_mem _ hx)
    unfold checkAux
    by_cases hk : k = id
    · rw [checkStep_skip env st k wf (h (k, wf) (List.mem_cons_self _ _) hk)]
      exact ih st hrest
    · rcases hcs : checkStep env st k wf with ⟨res, st1⟩
      have hg : alistGet st1.pendingWorkflows id = alistGet st.pendingWorkflows id := by
        have hh := checkStep_get_ne env st k wf id (fun hi => hk hi.symm)
        rw [hcs] at hh
        exact hh
      cases res <;> simp only <;> rw [ih st1 hrest] <;> exact hg

theorem checkAux_keys (env : ClientEnv)
    (entries : List (List Char × ConditionalWorkflow)) :
    ∀ st : EngineState,
    (∀ e ∈ entries, e.1 ∈ st.pendingWorkflows.map (fun x => x.1)) →
    (checkAux env entries st).2.pendingWorkflows.map (fun e => e.1) =
      st.pendingWorkflows.map (fun e => e.1) := by
  induction entries with
  | nil => intro st _; rfl
  | cons e rest ih =>
    intro st h
    obtain ⟨k, wf⟩ := e
    unfold checkAux
    rcases hcs : checkStep env st k wf with ⟨res, st1⟩
    have hkeys : st1.pendingWorkflows.map (fun e => e.1) =
        st.pendingWorkflows.map (fun e => e.1) := by
      have hh := checkStep_keys env st k wf (h (k, wf) (List.mem_cons_self _ _))
      rw [hcs] at hh
      exact hh
    have hrest : ∀ e ∈ rest, e.1 ∈ st1.pendingWorkflows.map (fun x => x.1) := by
      intro x hx
      rw [hkeys]
      exact h x (List.mem_cons_of_mem _ hx)
    cases res <;> simp only <;> rw [ih st1 hrest] <;> exact hkeys

theorem alistGet_unique {α : Type} (l : List (List Char × α)) (id : List Char) (wf : α)
    (hnd : (l.map (fun e => e.1)).Nodup) (hget : alistGet l id = some wf) :
    ∀ e ∈ l, e.1 = id → e.2 = wf := by
  intro e he hei
  have hmem : (id, e.2) ∈ l := by
    rw [← hei]
    exact he
  have h1 := alistGet_of_mem_nodup l id e.2 hnd hmem
  rw [hget] at h1
  exact (Option.some.inj h1).symm

theorem checkStep_spec (env : ClientEnv) (st st₀ : EngineState) (id : List Char)
    (wf : ConditionalWorkflow)
    (hag0 : wf.status = .pending → ∀ pid, condPid wf.condition = some pid →
      alistGet st.patientResponses pid = alistGet st₀.patientResponses pid) :
    (checkStep env st id wf).1 = scanOutcome env st₀ wf ∧
    (checkStep env st id wf).2.pendingWorkflows =
      (match scanOutcome env st₀ wf with
       | none => st.pendingWorkflows
       | some _ => alistSet st.pendingWorkflows id (postWf env st₀ wf)) ∧
    (checkStep env st id wf).2.patientResponses =
      (match scanOutcome env st₀ wf, condPid wf.condition with
       | some _, some pid => alistDel st.patientResponses pid
       | _, _ => st.patientResponses) ∧
    (checkStep env st id wf).2.scheduledRemovals =
      st.scheduledRemovals ++
        (match scanOutcome env st₀ wf with
         | some r => if r.success then [id] else []
         | none => []) := by
  by_cases hs : wf.status ≠ .pending
  · rw [checkStep_skip env st id wf hs]
    unfold scanOutcome
    rw [if_pos hs]
    exact ⟨rfl, rfl, rfl, by simp⟩
  · have hag := hag0 (not_not.mp hs)
    have hctxeq := entryCtx_congr st st₀ wf hag
    unfold checkStep scanOutcome
    rw [if_neg hs, if_neg hs, hctxeq]
    rcases hctx : entryCtx st₀ wf with _ | ctx
    · exact ⟨rfl, rfl, rfl, by simp⟩
    · simp only
      have hrun : (executeWorkflow env { wf with status := .ready } ctx
          { st with pendingWorkflows :=
            alistSet st.pendingWorkflows id { wf with status := .ready } }).1 =
          (executeWorkflow env { wf with status := .ready } ctx st₀).1 := by
        apply executeWorkflow_fst_congr
        intro pid hpid
        exact hag pid hpid
      have hst2 : (executeWorkflow env { wf with status := .ready } ctx
          { st with pendingWorkflows :=
            alistSet st.pendingWorkflows id { wf with status := .ready } }).2 =
          { st with pendingWorkflows :=
            alistSet st.pendingWorkflows id { wf with status := .ready } } :=
        executeWorkflow_state _ _ _ _
      have hpost : postWf env st₀ wf =
          { wf with status := if (executeWorkflow env { wf with status := .ready }
              ctx st₀).1.success then .completed else .failed } := by
        unfold postWf scanOutcome
        rw [if_neg hs, hctx]
      rw [hrun, hst2, hpost]
      refine ⟨rfl, ?_, ?_, ?_⟩
      · cases wf.condition <;>
          (try simp only [clearPatientResponse]) <;>
          split <;>
          simp only [alistSet_alistSet]
      · rcases hcond : wf.condition with ⟨e, pid, m⟩ | _ | _ | _ | _ <;>
          simp only [condPid, clearPatientResponse] <;>
          split <;> rfl
      · cases wf.condition <;>
          (try simp only [clearPatientResponse]) <;>
          split <;> simp

theorem checkAux_spec (env : ClientEnv) (st₀ : EngineState)
    (entries : List (List Char × ConditionalWorkflow)) :
    ∀ st : EngineState,
    (entries.map (fun e => e.1)).Nodup →
    (pendingPids entries).Nodup →
    (∀ pid ∈ pendingPids entries,
      alistGet st.patientResponses pid = alistGet st₀.patientResponses pid) →
    (∀ k w, (k, w) ∈ entries → alistGet st.pendingWorkflows k = some w) →
    (checkAux env entries st).1 =
      entries.filterMap (fun e => scanOutcome env st₀ e.2) ∧
    (∀ k w, (k, w) ∈ entries →
      alistGet (checkAux env entries st).2.pendingWorkflows k =
        some (postWf env st₀ w)) ∧
    (checkAux env entries st).2.scheduledRemovals =
      st.scheduledRemovals ++ entries.filterMap (schedKey env st₀) := by
  induction entries with
  | nil =>
    intro st _ _ _ _
    refine ⟨rfl, ?_, by simp [checkAux]⟩
    intro k w h
    exact absurd h (List.not_mem_nil _)
  | cons e rest ih =>
    intro st hkn hpn hresp hstore
    obtain ⟨k, w⟩ := e
    rw [List.map_cons] at hkn
    obtain ⟨hk1, hk2⟩ := List.nodup_cons.mp hkn
    have hpcons : pendingPids ((k, w) :: rest) =
        match (if w.status = WStatus.pending then condPid w.condition else none) with
        | some p => p :: pendingPids rest
        | none => pendingPids rest := by
      unfold pendingPids
      rw [List.filterMap_cons]
      rcases (if w.status = WStatus.pending then condPid w.condition else none) with _ | p
      · rfl
      · rfl
    have hagw : w.status = .pending → ∀ pid, condPid w.condition = some pid →
        alistGet st.patientResponses pid = alistGet st₀.patientResponses pid := by
      intro hpend pid hpid
      apply hresp
      rw [hpcons, if_pos hpend, hpid]
      exact List.mem_cons_self _ _
    have hspec := checkStep_spec env st st₀ k w hagw
    unfold checkAux
    rcases hcs : checkStep env st k w with ⟨res, st1⟩
    rw [hcs] at hspec
    obtain ⟨hres, hpend', hresp', hsched'⟩ := hspec
    simp only at hres hpend' hresp' hsched'
    -- the invariants needed to apply the induction hypothesis at st1
    have hpn2 : (pendingPids rest).Nodup := by
      rw [hpcons] at hpn
      rcases hfe : (if w.status = WStatus.pending then condPid w.condition else none)
          with _ | p
      · rw [hfe] at hpn
        exact hpn
      · rw [hfe] at hpn
        exact (List.nodup_cons.mp hpn).2
    have hresp2 : ∀ pid ∈ pendingPids rest,
        alistGet st1.patientResponses pid = alistGet st₀.patientResponses pid := by
      intro pid hpid
      have hmem : pid ∈ pendingPids ((k, w) :: rest) := by
        rw [hpcons]
        rcases (if w.status = WStatus.pending then condPid w.condition else none) with _ | p
        · exact hpid
        · exact List.mem_cons_of_mem _ hpid
      rw [hresp']
      rcases hscan : scanOutcome env st₀ w with _ | r
      · exact hresp pid hmem
      · rcases hcp : condPid w.condition with _ | pide
        · exact hresp pid hmem
        · -- the cleared pid is the head of the pending pid list and differs from pid
          have hwpend : w.status = .pending := by
            by_contra hnp
            rw [scanOutcome, if_pos hnp] at hscan
            exact Option.noConfusion hscan
          have hne : pid ≠ pide := by
            intro hh
            subst hh
            rw [hpcons, if_pos hwpend, hcp] at hpn
            exact (List.nodup_cons.mp hpn).1 hpid
          show alistGet (alistDel st.patientResponses pide) pid = _
          rw [alistGet_del_ne _ _ _ hne]
          exact hresp pid hmem
    have hstore2 : ∀ k' w', (k', w') ∈ rest → alistGet st1.pendingWorkflows k' = some w' := by
      intro k' w' hmem
      have hkne : k' ≠ k := by
        intro hh
        exact hk1 (by rw [← hh]; exact List.mem_map.mpr ⟨(k', w'), hmem, rfl⟩)
      rw [hpend']
      rcases scanOutcome env st₀ w with _ | r
      · exact hstore k' w' (List.mem_cons_of_mem _ hmem)
      · show alistGet (alistSet st.pendingWorkflows k (postWf env st₀ w)) k' = some w'
        rw [alistGet_set_ne _ _ _ _ hkne]
        exact hstore k' w' (List.mem_cons_of_mem _ hmem)
    have hrest := ih st1 hk2 hpn2 hresp2 hstore2
    -- assemble the three conjuncts
    refine ⟨?_, ?_, ?_⟩
    · rw [List.filterMap_cons]
      cases hscan : scanOutcome env st₀ w with
      | none =>
        rw [hscan] at hres
        subst hres
        simp only
        exact hrest.1
      | some r =>
        rw [hscan] at hres
        subst hres
        simp only
        rw [hrest.1]
    · intro k' w' hmem
      rcases List.mem_cons.mp hmem with hhead | htail
      · have hk'k : k' = k := congrArg Prod.fst hhead
        have hw'w : w' = w := congrArg Prod.snd hhead
        rw [hk'k, hw'w]
        have hh := checkAux_get_stable env rest k st1 (fun e he hei =>
          absurd (by rw [← hei]; exact List.mem_map.mpr ⟨e, he, rfl⟩) hk1)
        have hfin : alistGet st1.pendingWorkflows k = some (postWf env st₀ w) := by
          rw [hpend']
          rcases hscan : scanOutcome env st₀ w with _ | r
          · have hpw : postWf env st₀ w = w := by
              unfold postWf
              rw [hscan]
            rw [hpw]
            exact hstore k w (List.mem_cons_self _ _)
          · exact alistGet_set_self _ _ _
        cases res <;> exact hh.trans hfin
      · cases res <;> simp only <;> exact hrest.2.1 k' w' htail
    · rw [List.filterMap_cons]
      have hsk : schedKey env st₀ (k, w) =
          match scanOutcome env st₀ w with
          | some r => if r.success then some k else none
          | none => none := rfl
      cases hscan : scanOutcome env st₀ w with
      | none =>
        rw [hscan] at hres hsched'
        subst hres
        simp only
        rw [hrest.2.2, hsched', hsk]
        simp [hscan]
      | some r =>
        rw [hscan] at hres hsched'
        subst hres
        simp only
        rw [hrest.2.2, hsched', hsk]
        by_cases hsucc : r.success = true
        · simp [hscan, hsucc, List.append_assoc]
        · rw [Bool.not_eq_true] at hsucc
          simp [hscan, hsucc, List.append_assoc]

/-!  Per-operation preservation of the terminal-status invariant.  -/

theorem applyOp_preserve (op : EngineOp) (st : EngineState) (id : List Char)
    (wf : ConditionalWorkflow)
    (hnot : ¬ setsId id op) (hnd : KeysND st)
    (ht : wf.status = .completed ∨ wf.status = .failed)
    (hget : alistGet st.pendingWorkflows id = none ∨
            alistGet st.pendingWorkflows id = some wf) :
    KeysND (applyOp op st) ∧
    (alistGet (applyOp op st).pendingWorkflows id = none ∨
     alistGet (applyOp op st).pendingWorkflows id = some wf) := by
  cases op with
  | setPending i w =>
    have hne : id ≠ i := fun hh => hnot (hh.symm)
    have hpend : (applyOp (EngineOp.setPending i w) st).pendingWorkflows =
        alistSet st.pendingWorkflows i { w with status := .pending } := rfl
    constructor
    · show ((applyOp (EngineOp.setPending i w) st).pendingWorkflows.map
        (fun e => e.1)).Nodup
      rw [hpend]
      exact nodup_keys_alistSet _ _ _ hnd
    · rw [hpend, alistGet_set_ne _ _ _ _ hne]
      exact hget
  | removePending i =>
    have hpend : (applyOp (EngineOp.removePending i) st).pendingWorkflows =
        alistDel st.pendingWorkflows i := rfl
    constructor
    · show ((applyOp (EngineOp.removePending i) st).pendingWorkflows.map
        (fun e => e.1)).Nodup
      rw [hpend]
      exact nodup_keys_alistDel _ _ hnd
    · rw [hpend]
      by_cases hi : id = i
      · subst hi
        exact Or.inl (alistGet_del_self_of_nodup _ _ hnd)
      · rw [alistGet_del_ne _ _ _ hi]
        exact hget
  | record pid r now => exact ⟨hnd, hget⟩
  | clearResponse pid => exact ⟨hnd, hget⟩
  | executeWf env w ctx =>
    have hst : applyOp (EngineOp.executeWf env w ctx) st = st :=
      executeWorkflow_state env w ctx st
    rw [hst]
    exact ⟨hnd, hget⟩
  | fireRemoval i =>
    have hfr : applyOp (EngineOp.fireRemoval i) st = fireScheduledRemoval i st := rfl
    rw [hfr]
    unfold fireScheduledRemoval
    split
    · constructor
      · show ((alistDel st.pendingWorkflows i).map (fun e => e.1)).Nodup
        exact nodup_keys_alistDel _ _ hnd
      · show alistGet (alistDel st.pendingWorkflows i) id = none ∨
            alistGet (alistDel st.pendingWorkflows i) id = some wf
        by_cases hi : id = i
        · subst hi
          exact Or.inl (alistGet_del_self_of_nodup _ _ hnd)
        · rw [alistGet_del_ne _ _ _ hi]
          exact hget
    · exact ⟨hnd, hget⟩
  | checkPending env =>
    have hkeys := checkAux_keys env st.pendingWorkflows st
      (fun e he => List.mem_map.mpr ⟨e, he, rfl⟩)
    constructor
    · show ((checkAux env st.pendingWorkflows st).2.pendingWorkflows.map (fun e => e.1)).Nodup
      rw [hkeys]
      exact hnd
    · rcases hget with hnone | hsome
      · have hstable := checkAux_get_stable env st.pendingWorkflows id st
          (fun e he hei => absurd hei ((alistGet_eq_none_iff _ _).mp hnone e he))
        exact Or.inl (hstable.trans hnone)
      · have hterm : ∀ e ∈ st.pendingWorkflows, e.1 = id → e.2.status ≠ .pending := by
          intro e he hei
          rw [alistGet_unique st.pendingWorkflows id wf hnd hsome e he hei]
          rcases ht with ht | ht <;> rw [ht] <;> exact WStatus.noConfusion
        have hstable := checkAux_get_stable env st.pendingWorkflows id st hterm
        exact Or.inr (hstable.trans hsome)

/-!  String lemmas for the response-matching claims.  -/

theorem mem_dropWhile_of_mem {p : Char → Bool} {c : Char} {l : List Char}
    (h : c ∈ l) (hc : p c = false) : c ∈ l.dropWhile p := by
  induction l with
  | nil => exact absurd h (List.not_mem_nil _)
  | cons a rest ih =>
    by_cases ha : p a
    · rw [List.dropWhile_cons_of_pos ha]
      rcases List.mem_cons.mp h with hce | hcm
      · rw [hce] at hc
        rw [ha] at hc
        exact Bool.noConfusion hc
      · exact ih hcm
    · rw [List.dropWhile_cons_of_neg ha]
      exact h

theorem mem_jsTrim_of_mem {c : Char} {l : List Char} (h : c ∈ l) (hc : isJsWS c = false) :
    c ∈ jsTrim l := by
  unfold jsTrim
  rw [List.mem_reverse]
  refine mem_dropWhile_of_mem ?_ hc
  rw [List.mem_reverse]
  exact mem_dropWhile_of_mem h hc

theorem jsIncludes_of_mem {c : Char} {l : List Char} (h : c ∈ l) :
    jsIncludes [c] l = true := by
  induction l with
  | nil => exact absurd h (List.not_mem_nil _)
  | cons a rest ih =>
    rcases List.mem_cons.mp h with hce | hcm
    · subst hce
      simp [jsIncludes, lPre]
    · simp [jsIncludes, ih hcm]

theorem mem_jsLower_y {l : List Char} (h : 'y' ∈ l ∨ 'Y' ∈ l) : 'y' ∈ jsLower l := by
  unfold jsLower
  rcases h with h | h
  · have hy : lowerChar 'y' = 'y' := by decide
    rw [← hy]
    exact List.mem_map_of_mem lowerChar h
  · have hy : lowerChar 'Y' = 'y' := by decide
    rw [← hy]
    exact List.mem_map_of_mem lowerChar h

theorem jsTrim_of_all_ws {l : List Char} (h : ∀ c ∈ l, isJsWS c = true) : jsTrim l = [] := by
  unfold jsTrim
  have h1 : l.dropWhile (fun c => isJsWS c) = [] := by
    rw [List.dropWhile_eq_nil_iff]
    exact h
  rw [h1]
  rfl

/-!  Claim C1.  -/

/-!  Matcher characterizations for the compound classifier.  -/

theorem bnot_isEmpty_iff {α : Type} (l : List α) : (!l.isEmpty) = true ↔ l ≠ [] := by
  cases l <;> simp

theorem ciPre_iff (p : List Char) :
    ∀ s, ciPre p s = true ↔ ∃ t b, s = t ++ b ∧ t.map lowerChar = p := by
  induction p with
  | nil =>
    intro s
    constructor
    · intro _
      exact ⟨[], s, rfl, rfl⟩
    · intro _
      rfl
  | cons ph pt ih =>
    intro s
    cases s with
    | nil =>
      constructor
      · intro h
        exact Bool.noConfusion h
      · rintro ⟨t, b, hs, ht⟩
        rcases List.append_eq_nil.mp hs.symm with ⟨ht0, _⟩
        rw [ht0] at ht
        exact List.noConfusion ht
    | cons c cs =>
      rw [ciPre, Bool.and_eq_true]
      constructor
      · rintro ⟨h1, h2⟩
        obtain ⟨t, b, hs, ht⟩ := (ih cs).mp h2
        refine ⟨c :: t, b, by rw [hs]; rfl, ?_⟩
        rw [List.map_cons, ht, of_decide_eq_true h1]
      · rintro ⟨t, b, hs, ht⟩
        cases t with
        | nil => exact absurd ht (by intro hh; exact List.noConfusion hh)
        | cons c' t' =>
          rw [List.cons_append] at hs
          injection hs with hs1 hs2
          rw [List.map_cons] at ht
          injection ht with ht1 ht2
          constructor
          · rw [← hs1] at ht1
            exact decide_eq_true ht1
          · exact (ih cs).mpr ⟨t', b, hs2, ht2⟩

theorem ascSplits_sound (cl : Char → Bool) :
    ∀ (s : List Char) (t : List Char × Char × Nat), t ∈ ascSplits cl s →
      ∃ w, w ≠ [] ∧ (∀ x ∈ w, cl x = true) ∧ s = w ++ t.1 := by
  intro s
  induction s with
  | nil =>
    intro t ht
    exact absurd ht (List.not_mem_nil _)
  | cons c rest ih =>
    intro t ht
    rw [ascSplits] at ht
    by_cases hc : cl c = true
    · rw [if_pos hc] at ht
      rcases List.mem_cons.mp ht with h1 | h2
      · refine ⟨[c], List.cons_ne_nil c [], ?_, ?_⟩
        · intro x hx
          rw [List.mem_singleton.mp hx]
          exact hc
        · rw [h1]
          rfl
      · obtain ⟨t', ht', htt⟩ := List.mem_map.mp h2
        obtain ⟨w, hw1, hw2, hw3⟩ := ih t' ht'
        refine ⟨c :: w, List.cons_ne_nil c w, ?_, ?_⟩
        · intro x hx
          rcases List.mem_cons.mp hx with h | h
          · rw [h]
            exact hc
          · exact hw2 x h
        · have ht1 : t.1 = t'.1 := by rw [← htt]
          rw [ht1, hw3, List.cons_append]
    · rw [if_neg hc] at ht
      exact absurd ht (List.not_mem_nil _)

theorem ascSplits_complete (cl : Char → Bool) :
    ∀ (w b : List Char), w ≠ [] → (∀ x ∈ w, cl x = true) →
      ∃ c, (b, c, w.length) ∈ ascSplits cl (w ++ b) := by
  intro w
  induction w with
  | nil =>
    intro b h _
    exact absurd rfl h
  | cons c w' ih =>
    intro b _ hall
    by_cases hw' : w' = []
    · subst hw'
      refine ⟨c, ?_⟩
      show (b, c, 1) ∈ ascSplits cl (c :: b)
      rw [ascSplits, if_pos (hall c (List.mem_cons_self c []))]
      exact List.mem_cons_self _ _
    · obtain ⟨c', hc'⟩ := ih b hw' (fun x hx => hall x (List.mem_cons_of_mem c hx))
      refine ⟨c', ?_⟩
      show (b, c', w'.length + 1) ∈ ascSplits cl (c :: (w' ++ b))
      rw [ascSplits, if_pos (hall c (List.mem_cons_self c w'))]
      exact List.mem_cons_of_mem _ (List.mem_map.mpr ⟨(b, c', w'.length), hc', rfl⟩)

theorem mrun_plusG_sound (cl : Char → Bool) (prev : Option Char) (s : List Char)
    (caps : List (Nat × List Char)) (r : MRes) (h : r ∈ mrun (Pat.plusG cl) prev s caps) :
    (∃ w, w ≠ [] ∧ (∀ x ∈ w, cl x = true) ∧ s = w ++ r.rest) ∧ r.caps = caps := by
  simp only [mrun] at h
  obtain ⟨t, ht, htr⟩ := List.mem_map.mp h
  rw [List.mem_reverse] at ht
  obtain ⟨w, hw1, hw2, hw3⟩ := ascSplits_sound cl s t ht
  rw [← htr]
  exact ⟨⟨w, hw1, hw2, hw3⟩, rfl⟩

theorem mrun_plusG_complete (cl : Char → Bool) (prev : Option Char) (w b : List Char)
    (caps : List (Nat × List Char)) (hw : w ≠ []) (hall : ∀ x ∈ w, cl x = true) :
    ∃ pr, (⟨b, pr, caps⟩ : MRes) ∈ mrun (Pat.plusG cl) prev (w ++ b) caps := by
  obtain ⟨c, hc⟩ := ascSplits_complete cl w b hw hall
  refine ⟨some c, ?_⟩
  simp only [mrun]
  exact List.mem_map.mpr ⟨(b, c, w.length), List.mem_reverse.mpr hc, rfl⟩

theorem mrun_starG_sound (cl : Char → Bool) (prev : Option Char) (s : List Char)
    (caps : List (Nat × List Char)) (r : MRes) (h : r ∈ mrun (Pat.starG cl) prev s caps) :
    (∃ w, (∀ x ∈ w, cl x = true) ∧ s = w ++ r.rest) ∧ r.caps = caps := by
  simp only [mrun] at h
  rcases List.mem_append.mp h with h1 | h2
  · obtain ⟨t, ht, htr⟩ := List.mem_map.mp h1
    rw [List.mem_reverse] at ht
    obtain ⟨w, _, hw2, hw3⟩ := ascSplits_sound cl s t ht
    rw [← htr]
    exact ⟨⟨w, hw2, hw3⟩, rfl⟩
  · rw [List.mem_singleton.mp h2]
    exact ⟨⟨[], fun x hx => absurd hx (List.not_mem_nil x), rfl⟩, rfl⟩

theorem mrun_starG_complete (cl : Char → Bool) (prev : Option Char) (w b : List Char)
    (caps : List (Nat × List Char)) (hall : ∀ x ∈ w, cl x = true) :
    ∃ pr, (⟨b, pr, caps⟩ : MRes) ∈ mrun (Pat.starG cl) prev (w ++ b) caps := by
  by_cases hw : w = []
  · subst hw
    refine ⟨prev, ?_⟩
    simp only [mrun]
    exact List.mem_append.mpr (Or.inr (List.mem_singleton.mpr rfl))
  · obtain ⟨c, hc⟩ := ascSplits_complete cl w b hw hall
    refine ⟨some c, ?_⟩
    simp only [mrun]
    exact List.mem_append.mpr
      (Or.inl (List.mem_map.mpr ⟨(b, c, w.length), List.mem_reverse.mpr hc, rfl⟩))

theorem mrun_cls_sound (p : Char → Bool) (prev : Option Char) (s : List Char)
    (caps : List (Nat × List Char)) (r : MRes) (h : r ∈ mrun (Pat.cls p) prev s caps) :
    ∃ c rest, s = c :: rest ∧ p c = true ∧ r.rest = rest ∧ r.caps = caps := by
  cases s with
  | nil =>
    simp only [mrun] at h
    exact absurd h (List.not_mem_nil r)
  | cons c rest =>
    simp only [mrun] at h
    by_cases hc : p c = true
    · rw [if_pos hc] at h
      rw [List.mem_singleton.mp h]
      exact ⟨c, rest, rfl, hc, rfl, rfl⟩
    · rw [if_neg hc] at h
      exact absurd h (List.not_mem_nil r)

theorem mrun_cls_complete (p : Char → Bool) (prev : Option Char) (c : Char) (rest : List Char)
    (caps : List (Nat × List Char)) (hc : p c = true) :
    (⟨rest, some c, caps⟩ : MRes) ∈ mrun (Pat.cls p) prev (c :: rest) caps := by
  simp only [mrun]
  rw [if_pos hc]
  exact List.mem_singleton.mpr rfl

theorem mrun_lit_sound (l : List Char) (prev : Option Char) (s : List Char)
    (caps : List (Nat × List Char)) (r : MRes) (h : r ∈ mrun (Pat.lit l) prev s caps) :
    ∃ t b, s = t ++ b ∧ t.map lowerChar = l ∧ r.rest = b ∧ r.caps = caps := by
  simp only [mrun] at h
  by_cases hp : ciPre l s = true
  · rw [if_pos hp] at h
    obtain ⟨t, b, hs, ht⟩ := (ciPre_iff l s).mp hp
    have hlen : l.length = t.length := by rw [← ht, List.length_map]
    rw [List.mem_singleton.mp h]
    refine ⟨t, b, hs, ht, ?_, rfl⟩
    show s.drop l.length = b
    rw [hs, hlen, List.drop_left]
  · rw [if_neg hp] at h
    exact absurd h (List.not_mem_nil r)

theorem mrun_lit_complete (l : List Char) (prev : Option Char) (t b : List Char)
    (caps : List (Nat × List Char)) (ht : t.map lowerChar = l) :
    ∃ pr, (⟨b, pr, caps⟩ : MRes) ∈ mrun (Pat.lit l) prev (t ++ b) caps := by
  have hp : ciPre l (t ++ b) = true := (ciPre_iff l (t ++ b)).mpr ⟨t, b, rfl, ht⟩
  have hlen : l.length = t.length := by rw [← ht, List.length_map]
  refine ⟨afterConsume l.length prev (t ++ b), ?_⟩
  simp only [mrun]
  rw [if_pos hp]
  have hdrop : (t ++ b).drop l.length = b := by rw [hlen, List.drop_left]
  rw [hdrop]
  exact List.mem_singleton.mpr rfl

theorem mrun_plit_ne (w : String) (prev : Option Char) (s : List Char)
    (caps : List (Nat × List Char)) :
    mrun (plit w) prev s caps ≠ [] ↔ ciPre (str w) s = true := by
  show (if ciPre (str w) s = true then
      [(⟨s.drop (str w).length, afterConsume (str w).length prev s, caps⟩ : MRes)]
    else []) ≠ [] ↔ _
  by_cases hp : ciPre (str w) s = true
  · rw [if_pos hp]
    simp [hp]
  · rw [if_neg hp]
    simp [hp]

theorem mrun_foldl_alt_ne (prev : Option Char) (s : List Char)
    (caps : List (Nat × List Char)) :
    ∀ (ps : List Pat) (p : Pat),
      mrun (ps.foldl Pat.alt p) prev s caps ≠ [] ↔
      (mrun p prev s caps ≠ [] ∨ ∃ q ∈ ps, mrun q prev s caps ≠ []) := by
  intro ps
  induction ps with
  | nil =>
    intro p
    simp
  | cons q qs ih =>
    intro p
    rw [List.foldl_cons, ih (Pat.alt p q)]
    constructor
    · rintro (h1 | ⟨q', hq', hne⟩)
      · by_cases hp : mrun p prev s caps = []
        · refine Or.inr ⟨q, List.mem_cons_self q qs, ?_⟩
          intro hq
          apply h1
          show mrun p prev s caps ++ mrun q prev s caps = []
          rw [hp, hq]
          rfl
        · exact Or.inl hp
      · exact Or.inr ⟨q', List.mem_cons_of_mem q hq', hne⟩
    · rintro (h1 | ⟨q', hq', hne⟩)
      · refine Or.inl ?_
        intro hh
        apply h1
        have hh' : mrun p prev s caps ++ mrun q prev s caps = [] := hh
        exact (List.append_eq_nil.mp hh').1
      · rcases List.mem_cons.mp hq' with he | hm
        · refine Or.inl ?_
          intro hh
          apply hne
          rw [he]
          have hh' : mrun p prev s caps ++ mrun q prev s caps = [] := hh
          exact (List.append_eq_nil.mp hh').2
        · exact Or.inr ⟨q', hm, hne⟩

theorem mrun_palts_ne (w0 : String) (ws : List String) (prev : Option Char) (s : List Char)
    (caps : List (Nat × List Char)) :
    mrun (palts (w0 :: ws)) prev s caps ≠ [] ↔
      ∃ vb ∈ w0 :: ws, ciPre (str vb) s = true := by
  show mrun ((ws.map plit).foldl Pat.alt (plit w0)) prev s caps ≠ [] ↔ _
  rw [mrun_foldl_alt_ne prev s caps (ws.map plit) (plit w0), mrun_plit_ne]
  constructor
  · rintro (h1 | ⟨q, hq, hne⟩)
    · exact ⟨w0, List.mem_cons_self _ _, h1⟩
    · obtain ⟨vb, hvb, hq'⟩ := List.mem_map.mp hq
      rw [← hq', mrun_plit_ne] at hne
      exact ⟨vb, List.mem_cons_of_mem _ hvb, hne⟩
  · rintro ⟨vb, hvb, hp⟩
    rcases List.mem_cons.mp hvb with he | hm
    · rw [he] at hp
      exact Or.inl hp
    · refine Or.inr ⟨plit vb, List.mem_map.mpr ⟨vb, hm, rfl⟩, ?_⟩
      rw [mrun_plit_ne]
      exact hp

theorem mrun_grp_ne (n : Nat) (p : Pat) (prev : Option Char) (s : List Char)
    (caps : List (Nat × List Char)) :
    mrun (Pat.grp n p) prev s caps ≠ [] ↔ mrun p prev s caps ≠ [] := by
  simp only [mrun, ne_eq, List.map_eq_nil_iff]

theorem mrun_rThen_ne (prev : Option Char) (s : List Char) :
    mrun rThen prev s [] ≠ [] ↔
      ∃ w₁ t c b, s = w₁ ++ (t ++ c :: b) ∧ WsRun w₁ ∧ SpellsCI t "then" ∧
        isJsWS c = true := by
  have hform : rThen = Pat.seq (Pat.seq pw (plit "then")) pw := rfl
  rw [hform]
  constructor
  · intro h
    obtain ⟨r, hr⟩ := List.exists_mem_of_ne_nil _ h
    have hr' : r ∈ (mrun (Pat.seq pw (plit "then")) prev s []).flatMap
        (fun r1 => mrun pw r1.prev r1.rest r1.caps) := hr
    obtain ⟨r1, hr1, hrr⟩ := List.mem_flatMap.mp hr'
    have hr1' : r1 ∈ (mrun pw prev s []).flatMap
        (fun r2 => mrun (plit "then") r2.prev r2.rest r2.caps) := hr1
    obtain ⟨r2, hr2, hr12⟩ := List.mem_flatMap.mp hr1'
    obtain ⟨⟨w1, hw1ne, hw1all, hw1s⟩, _⟩ := mrun_plusG_sound isJsWS prev s [] r2 hr2
    obtain ⟨t, b1, hs1, htl, hrest1, _⟩ :=
      mrun_lit_sound (str "then") r2.prev r2.rest r2.caps r1 hr12
    obtain ⟨⟨w2, hw2ne, hw2all, hw2s⟩, _⟩ :=
      mrun_plusG_sound isJsWS r1.prev r1.rest r1.caps r hrr
    cases w2 with
    | nil => exact absurd rfl hw2ne
    | cons c w2' =>
      refine ⟨w1, t, c, w2' ++ r.rest, ?_, ⟨hw1ne, hw1all⟩, htl,
        hw2all c (List.mem_cons_self _ _)⟩
      rw [hw1s, hs1, ← hrest1, hw2s]
      rfl
  · rintro ⟨w1, t, c, b, hs, ⟨hw1ne, hw1all⟩, htl, hc⟩
    obtain ⟨pr2, hm2⟩ := mrun_plusG_complete isJsWS prev w1 (t ++ c :: b) [] hw1ne hw1all
    obtain ⟨pr1, hm1⟩ := mrun_lit_complete (str "then") pr2 t (c :: b) [] htl
    obtain ⟨pr0, hm0⟩ := mrun_plusG_complete isJsWS pr1 [c] b []
      (List.cons_ne_nil c []) (fun x hx => by rw [List.mem_singleton.mp hx]; exact hc)
    have hmem : (⟨b, pr0, []⟩ : MRes) ∈
        mrun (Pat.seq (Pat.seq pw (plit "then")) pw) prev (w1 ++ (t ++ c :: b)) [] := by
      show (⟨b, pr0, []⟩ : MRes) ∈
        (mrun (Pat.seq pw (plit "then")) prev (w1 ++ (t ++ c :: b)) []).flatMap
          (fun r1 => mrun pw r1.prev r1.rest r1.caps)
      refine List.mem_flatMap.mpr ⟨⟨c :: b, pr1, []⟩, ?_, hm0⟩
      show (⟨c :: b, pr1, []⟩ : MRes) ∈
        (mrun pw prev (w1 ++ (t ++ c :: b)) []).flatMap
          (fun r2 => mrun (plit "then") r2.prev r2.rest r2.caps)
      exact List.mem_flatMap.mpr ⟨⟨t ++ c :: b, pr2, []⟩, hm2, hm1⟩
    rw [hs]
    exact List.ne_nil_of_mem hmem

theorem mrun_rPunct_ne (prev : Option Char) (s : List Char) :
    mrun rPunct prev s [] ≠ [] ↔
      ∃ p w c b, s = p :: (w ++ c :: b) ∧ (isCommaChar p || isSemiChar p) = true ∧
        (∀ x ∈ w, isJsWS x = true) ∧ isWordChar c = true := by
  have hform : rPunct = Pat.seq
      (Pat.seq (Pat.cls (fun c => isCommaChar c || isSemiChar c)) pws)
      (Pat.cls isWordChar) := rfl
  rw [hform]
  constructor
  · intro h
    obtain ⟨r, hr⟩ := List.exists_mem_of_ne_nil _ h
    have hr' : r ∈ (mrun (Pat.seq (Pat.cls (fun c => isCommaChar c || isSemiChar c)) pws)
        prev s []).flatMap (fun r1 => mrun (Pat.cls isWordChar) r1.prev r1.rest r1.caps) := hr
    obtain ⟨r1, hr1, hrr⟩ := List.mem_flatMap.mp hr'
    have hr1' : r1 ∈ (mrun (Pat.cls (fun c => isCommaChar c || isSemiChar c))
        prev s []).flatMap (fun r2 => mrun pws r2.prev r2.rest r2.caps) := hr1
    obtain ⟨r2, hr2, hr12⟩ := List.mem_flatMap.mp hr1'
    obtain ⟨p, rest0, hs0, hp, hrest0, _⟩ :=
      mrun_cls_sound (fun c => isCommaChar c || isSemiChar c) prev s [] r2 hr2
    obtain ⟨⟨w, hwall, hws⟩, _⟩ := mrun_starG_sound isJsWS r2.prev r2.rest r2.caps r1 hr12
    obtain ⟨c, b, hcb, hcw, _, _⟩ :=
      mrun_cls_sound isWordChar r1.prev r1.rest r1.caps r hrr
    refine ⟨p, w, c, b, ?_, hp, hwall, hcw⟩
    rw [hs0, ← hrest0, hws, hcb]
  · rintro ⟨p, w, c, b, hs, hp, hwall, hcw⟩
    have hm2 := mrun_cls_complete (fun c => isCommaChar c || isSemiChar c) prev p
      (w ++ c :: b) [] hp
    obtain ⟨pr1, hm1⟩ := mrun_starG_complete isJsWS (some p) w (c :: b) [] hwall
    have hm0 := mrun_cls_complete isWordChar pr1 c b [] hcw
    have hmem : (⟨b, some c, []⟩ : MRes) ∈
        mrun (Pat.seq (Pat.seq (Pat.cls (fun c => isCommaChar c || isSemiChar c)) pws)
          (Pat.cls isWordChar)) prev (p :: (w ++ c :: b)) [] := by
      show (⟨b, some c, []⟩ : MRes) ∈
        (mrun (Pat.seq (Pat.cls (fun c => isCommaChar c || isSemiChar c)) pws)
          prev (p :: (w ++ c :: b)) []).flatMap
          (fun r1 => mrun (Pat.cls isWordChar) r1.prev r1.rest r1.caps)
      refine List.mem_flatMap.mpr ⟨⟨c :: b, pr1, []⟩, ?_, hm0⟩
      show (⟨c :: b, pr1, []⟩ : MRes) ∈
        (mrun (Pat.cls (fun c => isCommaChar c || isSemiChar c))
          prev (p :: (w ++ c :: b)) []).flatMap
          (fun r2 => mrun pws r2.prev r2.rest r2.caps)
      exact List.mem_flatMap.mpr ⟨⟨w ++ c :: b, some p, []⟩, hm2, hm1⟩
    rw [hs]
    exact List.ne_nil_of_mem hmem

theorem mrun_chainVerbs_ne (prev : Option Char) (s : List Char)
    (caps : List (Nat × List Char)) :
    mrun (palts chainVerbs) prev s caps ≠ [] ↔
      ∃ vb ∈ chainVerbs, ciPre (str vb) s = true :=
  mrun_palts_ne "show" ["find", "search", "add", "update", "plot", "draft", "select",
    "list", "display", "view", "get", "see"] prev s caps

theorem mrun_rAndVerb_ne (prev : Option Char) (s : List Char) :
    mrun rAndVerb prev s [] ≠ [] ↔
      ∃ w₁ t w₂ v b, s = w₁ ++ (t ++ (w₂ ++ (v ++ b))) ∧ WsRun w₁ ∧ SpellsCI t "and" ∧
        WsRun w₂ ∧ ∃ vb ∈ chainVerbs, SpellsCI v vb := by
  have hform : rAndVerb = Pat.seq (Pat.seq (Pat.seq pw (plit "and")) pw)
      (Pat.grp 1 (palts chainVerbs)) := rfl
  rw [hform]
  constructor
  · intro h
    obtain ⟨r, hr⟩ := List.exists_mem_of_ne_nil _ h
    have hr' : r ∈ (mrun (Pat.seq (Pat.seq pw (plit "and")) pw) prev s []).flatMap
        (fun rB => mrun (Pat.grp 1 (palts chainVerbs)) rB.prev rB.rest rB.caps) := hr
    obtain ⟨rB, hrB, hrG⟩ := List.mem_flatMap.mp hr'
    have hrB' : rB ∈ (mrun (Pat.seq pw (plit "and")) prev s []).flatMap
        (fun rA => mrun pw rA.prev rA.rest rA.caps) := hrB
    obtain ⟨rA, hrA, hrW⟩ := List.mem_flatMap.mp hrB'
    have hrA' : rA ∈ (mrun pw prev s []).flatMap
        (fun r2 => mrun (plit "and") r2.prev r2.rest r2.caps) := hrA
    obtain ⟨r2, hr2, hr12⟩ := List.mem_flatMap.mp hrA'
    obtain ⟨⟨w1, hw1ne, hw1all, hw1s⟩, _⟩ := mrun_plusG_sound isJsWS prev s [] r2 hr2
    obtain ⟨t, bA, hsA, htl, hrestA, _⟩ :=
      mrun_lit_sound (str "and") r2.prev r2.rest r2.caps rA hr12
    obtain ⟨⟨w2, hw2ne, hw2all, hw2s⟩, _⟩ :=
      mrun_plusG_sound isJsWS rA.prev rA.rest rA.caps rB hrW
    have hGne : mrun (palts chainVerbs) rB.prev rB.rest rB.caps ≠ [] :=
      (mrun_grp_ne 1 (palts chainVerbs) rB.prev rB.rest rB.caps).mp
        (List.ne_nil_of_mem hrG)
    obtain ⟨vb, hvb, hci⟩ := (mrun_chainVerbs_ne rB.prev rB.rest rB.caps).mp hGne
    obtain ⟨v, b, hvB, hvl⟩ := (ciPre_iff (str vb) rB.rest).mp hci
    refine ⟨w1, t, w2, v, b, ?_, ⟨hw1ne, hw1all⟩, htl, ⟨hw2ne, hw2all⟩, vb, hvb, hvl⟩
    rw [hw1s, hsA, ← hrestA, hw2s, hvB]
  · rintro ⟨w1, t, w2, v, b, hs, ⟨hw1ne, hw1all⟩, htl, ⟨hw2ne, hw2all⟩, vb, hvb, hvl⟩
    obtain ⟨pr2, hm2⟩ :=
      mrun_plusG_complete isJsWS prev w1 (t ++ (w2 ++ (v ++ b))) [] hw1ne hw1all
    obtain ⟨prA, hmA⟩ := mrun_lit_complete (str "and") pr2 t (w2 ++ (v ++ b)) [] htl
    obtain ⟨prB, hmB⟩ := mrun_plusG_complete isJsWS prA w2 (v ++ b) [] hw2ne hw2all
    have hci : ciPre (str vb) (v ++ b) = true := (ciPre_iff (str vb) (v ++ b)).mpr
      ⟨v, b, rfl, hvl⟩
    have hGne : mrun (Pat.grp 1 (palts chainVerbs)) prB (v ++ b) [] ≠ [] :=
      (mrun_grp_ne 1 (palts chainVerbs) prB (v ++ b) []).mpr
        ((mrun_chainVerbs_ne prB (v ++ b) []).mpr ⟨vb, hvb, hci⟩)
    obtain ⟨rG, hrG⟩ := List.exists_mem_of_ne_nil _ hGne
    have hmem : rG ∈ mrun (Pat.seq (Pat.seq (Pat.seq pw (plit "and")) pw)
        (Pat.grp 1 (palts chainVerbs))) prev (w1 ++ (t ++ (w2 ++ (v ++ b)))) [] := by
      show rG ∈ (mrun (Pat.seq (Pat.seq pw (plit "and")) pw)
          prev (w1 ++ (t ++ (w2 ++ (v ++ b)))) []).flatMap
          (fun rB => mrun (Pat.grp 1 (palts chainVerbs)) rB.prev rB.rest rB.caps)
      refine List.mem_flatMap.mpr ⟨⟨v ++ b, prB, []⟩, ?_, hrG⟩
      show (⟨v ++ b, prB, []⟩ : MRes) ∈
        (mrun (Pat.seq pw (plit "and")) prev (w1 ++ (t ++ (w2 ++ (v ++ b)))) []).flatMap
          (fun rA => mrun pw rA.prev rA.rest rA.caps)
      refine List.mem_flatMap.mpr ⟨⟨w2 ++ (v ++ b), prA, []⟩, ?_, hmB⟩
      show (⟨w2 ++ (v ++ b), prA, []⟩ : MRes) ∈
        (mrun pw prev (w1 ++ (t ++ (w2 ++ (v ++ b)))) []).flatMap
          (fun r2 => mrun (plit "and") r2.prev r2.rest r2.caps)
      exact List.mem_flatMap.mpr ⟨⟨t ++ (w2 ++ (v ++ b)), pr2, []⟩, hm2, hmA⟩
    rw [hs]
    exact List.ne_nil_of_mem hmem

theorem testFrom_char_iff (r : Pat) (P : List Char → Prop)
    (hch : ∀ prev s, mrun r prev s [] ≠ [] ↔ P s) :
    ∀ (s : List Char) (prev : Option Char),
      testFrom r prev s = true ↔ ∃ a b, s = a ++ b ∧ P b := by
  intro s
  induction s with
  | nil =>
    intro prev
    simp only [testFrom]
    rw [bnot_isEmpty_iff, hch prev []]
    constructor
    · intro h
      exact ⟨[], [], rfl, h⟩
    · rintro ⟨a, b, hab, hP⟩
      rcases List.append_eq_nil.mp hab.symm with ⟨_, hb⟩
      rw [hb] at hP
      exact hP
  | cons c rest ih =>
    intro prev
    simp only [testFrom]
    rw [Bool.or_eq_true, bnot_isEmpty_iff, hch prev (c :: rest), ih (some c)]
    constructor
    · rintro (h | ⟨a, b, hab, hP⟩)
      · exact ⟨[], c :: rest, rfl, h⟩
      · exact ⟨c :: a, b, by rw [hab]; rfl, hP⟩
    · rintro ⟨a, b, hab, hP⟩
      cases a with
      | nil =>
        refine Or.inl ?_
        have hb : b = c :: rest := hab.symm
        rw [hb] at hP
        exact hP
      | cons a0 a' =>
        refine Or.inr ?_
        rw [List.cons_append] at hab
        injection hab with h1 h2
        exact ⟨a', b, h2, hP⟩

theorem regexTest_rThen_iff (s : List Char) :
    regexTest rThen s = true ↔ ThenConnectorP s := by
  rw [regexTest, testFrom_char_iff rThen
    (fun u => ∃ w₁ t c b, u = w₁ ++ (t ++ c :: b) ∧ WsRun w₁ ∧ SpellsCI t "then" ∧
      isJsWS c = true) mrun_rThen_ne s none]
  constructor
  · rintro ⟨a, u, hau, w₁, t, c, b, hu, hws, hsp, hc⟩
    exact ⟨a, w₁, t, c, b, by rw [hau, hu]; simp [List.append_assoc], hws, hsp, hc⟩
  · rintro ⟨a, w₁, t, c, b, hs, hws, hsp, hc⟩
    exact ⟨a, w₁ ++ (t ++ c :: b), by rw [hs]; simp [List.append_assoc],
      w₁, t, c, b, rfl, hws, hsp, hc⟩

theorem regexTest_rPunct_iff (s : List Char) :
    regexTest rPunct s = true ↔ PunctWordP s := by
  rw [regexTest, testFrom_char_iff rPunct
    (fun u => ∃ p w c b, u = p :: (w ++ c :: b) ∧ (isCommaChar p || isSemiChar p) = true ∧
      (∀ x ∈ w, isJsWS x = true) ∧ isWordChar c = true) mrun_rPunct_ne s none]
  constructor
  · rintro ⟨a, u, hau, p, w, c, b, hu, hp, hwall, hcw⟩
    have hp' : p = Char.ofNat 44 ∨ p = Char.ofNat 59 := by
      have h := hp
      simp only [isCommaChar, isSemiChar, Bool.or_eq_true, decide_eq_true_eq] at h
      exact h
    exact ⟨a, p, w, c, b, by rw [hau, hu], hp', hwall, hcw⟩
  · rintro ⟨a, p, w, c, b, hs, hp, hwall, hcw⟩
    have hp' : (isCommaChar p || isSemiChar p) = true := by
      simp only [isCommaChar, isSemiChar, Bool.or_eq_true, decide_eq_true_eq]
      exact hp
    exact ⟨a, p :: (w ++ c :: b), hs, p, w, c, b, rfl, hp', hwall, hcw⟩

theorem regexTest_rAndVerb_iff (s : List Char) :
    regexTest rAndVerb s = true ↔ AndVerbP s := by
  rw [regexTest, testFrom_char_iff rAndVerb
    (fun u => ∃ w₁ t w₂ v b, u = w₁ ++ (t ++ (w₂ ++ (v ++ b))) ∧ WsRun w₁ ∧
      SpellsCI t "and" ∧ WsRun w₂ ∧ ∃ vb ∈ chainVerbs, SpellsCI v vb)
    mrun_rAndVerb_ne s none]
  constructor
  · rintro ⟨a, u, hau, w₁, t, w₂, v, b, hu, hw1, hsp, hw2, hvb⟩
    exact ⟨a, w₁, t, w₂, v, b, by rw [hau, hu]; simp [List.append_assoc],
      hw1, hsp, hw2, hvb⟩
  · rintro ⟨a, w₁, t, w₂, v, b, hs, hw1, hsp, hw2, hvb⟩
    exact ⟨a, w₁ ++ (t ++ (w₂ ++ (v ++ b))), by rw [hs]; simp [List.append_assoc],
      w₁, t, w₂, v, b, rfl, hw1, hsp, hw2, hvb⟩

theorem scanOutcome_fail_error (env : ClientEnv) (st : EngineState)
    (wf : ConditionalWorkflow) (r : WorkflowResult)
    (hscan : scanOutcome env st wf = some r) (hfail : r.success = false) :
    r.error ≠ none := by
  unfold scanOutcome at hscan
  by_cases hp : wf.status ≠ WStatus.pending
  · rw [if_pos hp] at hscan
    exact Option.noConfusion hscan
  · rw [if_neg hp] at hscan
    rcases hctx : entryCtx st wf with _ | ctx
    · rw [hctx] at hscan
      exact Option.noConfusion hscan
    · rw [hctx] at hscan
      have hr := Option.some.inj hscan
      rw [← hr] at hfail ⊢
      exact executeWorkflow_fail_error env { wf with status := WStatus.ready } ctx st hfail

/-- C1 as amended: along any sequence of engine operations in which no
setPendingWorkflow call reuses the id (the engine generates fresh ids,
so re-registration never happens in practice), a stored workflow that is
completed or failed never subsequently shows status pending or ready: it
stays unchanged until it is removed.  Without that proviso the claim
fails, because setPendingWorkflow overwrites the stored entry with status
pending (see the counterexample). -/
theorem c1_status_monotone (ops : List EngineOp) (st : EngineState) (id : List Char)
    (wf : ConditionalWorkflow)
    (hnd : KeysND st)
    (hops : ∀ op ∈ ops, ¬ setsId id op)
    (hget : alistGet st.pendingWorkflows id = some wf)
    (ht : wf.status = .completed ∨ wf.status = .failed) :
    ∀ wf2, alistGet (applyOps ops st).pendingWorkflows id = some wf2 →
      wf2.status ≠ .pending ∧ wf2.status ≠ .ready := by
  have main : ∀ st0 : EngineState, KeysND st0 →
      (alistGet st0.pendingWorkflows id = none ∨
       alistGet st0.pendingWorkflows id = some wf) →
      (∀ op ∈ ops, ¬ setsId id op) →
      (alistGet (applyOps ops st0).pendingWorkflows id = none ∨
       alistGet (applyOps ops st0).pendingWorkflows id = some wf) := by
    clear hnd hget hops st
    induction ops with
    | nil => intro st0 _ hg _; exact hg
    | cons op rest ih =>
      intro st0 hnd0 hg0 hops0
      have hstep := applyOp_preserve op st0 id wf
        (hops0 op (List.mem_cons_self _ _)) hnd0 ht hg0
      exact ih (applyOp op st0) hstep.1 hstep.2
        (fun o ho => hops0 o (List.mem_cons_of_mem _ ho))
  intro wf2 h2
  rcases main st hnd (Or.inr hget) hops with hn | hs
  · rw [h2] at hn
    exact Option.noConfusion hn
  · rw [h2] at hs
    have : wf2 = wf := Option.some.inj hs
    subst this
    rcases ht with ht | ht <;> rw [ht] <;>
      exact ⟨WStatus.noConfusion, WStatus.noConfusion⟩

/-- C1 counterexample to the claim as stated: after a scan completes the
stored workflow w1 (which stays in the store until its removal timer
fires), a further setPendingWorkflow call with the same id stores it with
status pending again. -/
theorem c1_counterexample :
    statusAt demoState1 (str "w1") = some .completed ∧
    statusAt demoState2 (str "w1") = some .pending := ⟨rfl, rfl⟩

/-- C1 witness: from the state holding the completed w1, a response
recording and a further scan never bring w1 back to pending or ready. -/
theorem c1_status_monotone_witness :
    statusAt (applyOps [EngineOp.record (str "p9") (str "yes") 3,
        EngineOp.checkPending okEnv] demoState1) (str "w1") ≠ some WStatus.pending := by
  have h := c1_status_monotone
    [EngineOp.record (str "p9") (str "yes") 3, EngineOp.checkPending okEnv]
    demoState1 (str "w1") { wfSample with status := .completed }
    (by unfold KeysND; decide)
    (by
      intro op hop
      rcases List.mem_cons.mp hop with hcase | hop
      · rw [hcase]; exact fun f => f
      · rcases List.mem_cons.mp hop with hcase | hop
        · rw [hcase]; exact fun f => f
        · exact absurd hop (List.not_mem_nil _))
    (by decide)
    (Or.inl rfl)
  intro hc
  obtain ⟨wf2, hw, hs⟩ := Option.map_eq_some'.mp hc
  exact (h wf2 hw).1 hs

/-!  Claims C2, C3, C6, C7, C9 and C10.  -/

/-- C2: with an active patient set, the lab-threshold sentence parses to
a workflow command with an empty base command whose descriptor carries
the lab_value condition on code 2160-0 with the greater-than operator and
value 2.0, and the then-branch text builds the flag_for_specialty action
for Nephrology with the active patient id. -/
theorem c2_lab_threshold_parse :
    parseCommand (str "if creatinine > 2.0 then flag for nephrology") =
      .single
        { action := .workflow, resource := .workflow, params := {},
          raw := str "if creatinine > 2.0 then flag for nephrology",
          workflow := some
            { conditionType := .lab_value,
              conditionParams :=
                { labCode := some (str "2160-0"), operator := some .gt, value := some 2 },
              thenCommand := str "flag for nephrology" } } ∧
    (∀ pid : List Char,
      buildWorkflowAction (str "flag for nephrology") (some pid) =
        .flag_for_specialty pid (str "Nephrology") none) :=
  ⟨rfl, fun _ => rfl⟩

/-- C3: the compound sentence parses to exactly two commands in order: a
patient search on the name Smith, then a medication show marked to use
the active patient. -/
theorem c3_compound_parse :
    parseCommand (str "find patients named Smith and show their meds") =
      .multiple
        [ { action := .search, resource := .patient,
            params := { patientName := some (str "Smith") },
            raw := str "find patients named Smith" },
          { action := .show_, resource := .medication,
            params := { useActivePatient := some true },
            raw := str "show their meds" } ] := rfl

/-- C6: a patient_response condition evaluates to false (returning, not
throwing) when no response is recorded, and to true for the recorded
response text Yeah sure that works against expected yes. -/
theorem c6_response_eval (env : ClientEnv) (ctx : WorkflowContext) (pid msg : List Char)
    (st : EngineState) (now : Nat) :
    (getPatientResponse pid st = none →
      evaluateCondition env (.patient_response .yes pid msg) ctx st = (.ok false, st)) ∧
    (evaluateCondition env (.patient_response .yes pid msg) ctx
      (recordPatientResponse pid (str "Yeah sure that works") now st)).1 = .ok true := by
  constructor
  · intro h
    unfold getPatientResponse at h
    simp only [evaluateCondition, getPatientResponse, h]
  · simp only [evaluateCondition, getPatientResponse, recordPatientResponse,
      alistGet_set_self]
    have hok : yesWords.any (fun word =>
        jsIncludes word (jsLower (jsTrim (jsLower (str "Yeah sure that works"))))) = true := by
      decide
    rw [hok]

/-- C6 witness at a concrete state. -/
theorem c6_response_eval_witness :
    evaluateCondition okEnv (.patient_response .yes (str "p1") []) {} {} = (.ok false, {}) ∧
    (evaluateCondition okEnv (.patient_response .yes (str "p1") []) {}
      (recordPatientResponse (str "p1") (str "Yeah sure that works") 0 {})).1 = .ok true := by
  have h := c6_response_eval okEnv {} (str "p1") [] {} 0
  exact ⟨h.1 (by decide), h.2⟩

/-- C9: recording any response whose text contains the letter y makes a
patient_response condition with expected yes evaluate to true, because
the affirmative word set contains the single letter y and matching is
substring inclusion. -/
theorem c9_y_substring_yes (env : ClientEnv) (ctx : WorkflowContext)
    (pid msg resp : List Char) (st : EngineState) (now : Nat)
    (h : 'y' ∈ resp ∨ 'Y' ∈ resp) :
    (evaluateCondition env (.patient_response .yes pid msg) ctx
      (recordPatientResponse pid resp now st)).1 = .ok true := by
  have hy : 'y' ∈ jsTrim (jsLower resp) :=
    mem_jsTrim_of_mem (mem_jsLower_y h) (by decide)
  have hy2 : 'y' ∈ jsLower (jsTrim (jsLower resp)) := by
    unfold jsLower
    have hl : lowerChar 'y' = 'y' := by decide
    rw [← hl]
    exact List.mem_map_of_mem lowerChar hy
  have hinc : jsIncludes (str "y") (jsLower (jsTrim (jsLower resp))) = true := by
    have hs : str "y" = ['y'] := rfl
    rw [hs]
    exact jsIncludes_of_mem hy2
  have hany : yesWords.any
      (fun word => jsIncludes word (jsLower (jsTrim (jsLower resp)))) = true :=
    List.any_eq_true.mpr ⟨str "y", by decide, hinc⟩
  simp only [evaluateCondition, getPatientResponse, recordPatientResponse,
    alistGet_set_self, hany]

/-- C9 witness: the response no way contains the letter y, so the
condition with expected yes evaluates to true. -/
theorem c9_y_substring_yes_witness :
    (evaluateCondition okEnv (.patient_response .yes (str "p1") []) {}
      (recordPatientResponse (str "p1") (str "no way") 0 {})).1 = .ok true :=
  c9_y_substring_yes okEnv {} (str "p1") [] (str "no way") {} 0 (Or.inl (by decide))

/-- C10: executeWorkflow (and its two callees) never writes the engine
state, so the workflow it is passed and every stored workflow are
unchanged by a call; the response registry writers leave the workflow
store alone, and removing a workflow only deletes its binding.  A stored
status is therefore changed only by setPendingWorkflow and
checkPendingWorkflows. -/
theorem c10_executeWorkflow_frame :
    (∀ env wf ctx st, (executeWorkflow env wf ctx st).2 = st) ∧
    (∀ env act st, (executeAction env act st).2 = st) ∧
    (∀ env cond ctx st, (evaluateCondition env cond ctx st).2 = st) ∧
    (∀ pid resp now st,
      (recordPatientResponse pid resp now st).pendingWorkflows = st.pendingWorkflows) ∧
    (∀ pid st, (clearPatientResponse pid st).pendingWorkflows = st.pendingWorkflows) ∧
    (∀ id st,
      (removePendingWorkflow id st).2.pendingWorkflows = alistDel st.pendingWorkflows id) :=
  ⟨executeWorkflow_state, executeAction_state, evaluateCondition_state,
   fun _ _ _ _ => rfl, fun _ _ => rfl, fun _ _ => rfl⟩

/-- C7: parsing empty or whitespace-only input yields null, and a select
command with an index below one is rejected as invalid, returns no
result, and leaves the session (in particular the active patient)
unchanged. -/
theorem c7_boundary (input : List Char) (parsed : ParsedCommand)
    (context : Option CommandContext) (sess : Session) (n : Int)
    (hws : ∀ c ∈ input, isJsWS c = true)
    (ha : parsed.action = .select) (hi : parsed.params.index = some n) (hlt : n < 1)
    (hraw : jsLower parsed.raw ≠ str "help") :
    parseCommand input = .nothing ∧
    executeSelectFragment parsed context sess = (.invalidIndex, none, sess) := by
  constructor
  · unfold parseCommand
    rw [jsTrim_of_all_ws hws]
    rfl
  · unfold executeSelectFragment
    rw [if_neg]
    · rw [ha, hi]
      simp only
      rw [if_pos hlt]
    · rintro (hh | hh)
      · rw [ha] at hh
        exact ActionType.noConfusion hh
      · exact hraw hh

/-- C5 as amended: for every command classified with a message or ask
action, the message body is taken from the first of these checks that
matches, in the order the code performs them: a trailing quoted string
first, then text following about, saying or that, then text following if
(suffixed with a question mark). -/
theorem c5_message_priority (input : List Char) (cmd : ParsedCommand)
    (hp : parseSingleCommand input = some cmd)
    (ha : cmd.action = .message ∨ cmd.action = .ask) :
    cmd.params.messageContent =
      (match findCap quotedMsgPat 1 (jsTrim input) with
       | some q => some q
       | none =>
         match findCap aboutPat 1 (jsTrim input) with
         | some a => some a
         | none =>
           match findCap ifTailPat 1 (jsTrim input) with
           | some i => some (i ++ str "?")
           | none => none) := by
  have hq := hp
  simp only [parseSingleCommand] at hq
  by_cases he : (jsTrim input).isEmpty = true
  · rw [if_pos he] at hq
    exact Option.noConfusion hq
  · rw [if_neg he] at hq
    injection hq with hcmd
    subst hcmd
    exact (if_pos ha).trans rfl

/-- C5 counterexample: this message command carries both a saying phrase
and a trailing quoted string; the code takes the quoted string while the
claimed priority (about, saying, that first) would take the saying
capture, which differs. -/
theorem c5_counterexample :
    (parseSingleCommand (str "message pt saying hello \"bye\"")).map
        (fun c => c.params.messageContent) = some (some (str "bye")) ∧
    findCap aboutPat 1 (str "message pt saying hello \"bye\"") =
      some (str "hello \"bye") ∧
    some (str "bye") ≠ some (str "hello \"bye") := ⟨rfl, rfl, by decide⟩

/-- C5 witness at a concrete message command. -/
theorem c5_message_priority_witness :
    ∃ cmd, parseSingleCommand (str "message pt Bob about lunch") = some cmd ∧
      cmd.params.messageContent =
        (match findCap quotedMsgPat 1 (jsTrim (str "message pt Bob about lunch")) with
         | some q => some q
         | none =>
           match findCap aboutPat 1 (jsTrim (str "message pt Bob about lunch")) with
           | some a => some a
           | none =>
             match findCap ifTailPat 1 (jsTrim (str "message pt Bob about lunch")) with
             | some i => some (i ++ str "?")
             | none => none) := by
  refine ⟨_, rfl, c5_message_priority (str "message pt Bob about lunch") _ rfl
    (Or.inl (by rfl))⟩

/-- C7 witness: whitespace input and the command select 0. -/
theorem c7_boundary_witness :
    parseCommand (str "   ") = .nothing ∧
    executeSelectFragment
      { action := .select, resource := .unknown, params := { index := some 0 },
        raw := str "select 0" } none {} = (.invalidIndex, none, {}) := by
  have h := c7_boundary (str "   ")
    { action := .select, resource := .unknown, params := { index := some 0 },
      raw := str "select 0" } none {} 0
    (by decide) rfl rfl (by decide) (by decide)
  exact h


/-- C8: during a pending scan, when the processing of one pending
workflow fails internally (the thrown client error is caught inside
executeWorkflow and surfaced as a result with success false), that
workflow is marked failed with the error attached to its result record,
it stays in the store and is not scheduled for removal, and every other
entry of the same scan is still processed: the result list covers every
entry of the snapshot and every stored entry ends at its own outcome. -/
theorem c8_scan_failure_isolation (env : ClientEnv) (st : EngineState)
    (id : List Char) (wf : ConditionalWorkflow) (r : WorkflowResult)
    (hnd : KeysND st)
    (hdp : (pendingPids st.pendingWorkflows).Nodup)
    (hget : alistGet st.pendingWorkflows id = some wf)
    (hscan : scanOutcome env st wf = some r)
    (hfail : r.success = false)
    (hold : id ∉ st.scheduledRemovals) :
    r ∈ (checkPendingWorkflows env st).1 ∧
    r.error ≠ none ∧
    alistGet (checkPendingWorkflows env st).2.pendingWorkflows id =
      some { wf with status := WStatus.failed } ∧
    id ∉ (checkPendingWorkflows env st).2.scheduledRemovals ∧
    (checkPendingWorkflows env st).1 =
      st.pendingWorkflows.filterMap (fun e => scanOutcome env st e.2) ∧
    (∀ k w, (k, w) ∈ st.pendingWorkflows →
      alistGet (checkPendingWorkflows env st).2.pendingWorkflows k =
        some (postWf env st w)) := by
  have hmem : (id, wf) ∈ st.pendingWorkflows := alistGet_some_mem _ _ _ hget
  have hspec := checkAux_spec env st st.pendingWorkflows st hnd hdp
    (fun _ _ => rfl) (fun k w hm => alistGet_of_mem_nodup _ _ _ hnd hm)
  have hres : (checkPendingWorkflows env st).1 =
      st.pendingWorkflows.filterMap (fun e => scanOutcome env st e.2) := hspec.1
  have hstore : ∀ k w, (k, w) ∈ st.pendingWorkflows →
      alistGet (checkPendingWorkflows env st).2.pendingWorkflows k =
        some (postWf env st w) := hspec.2.1
  have hsched : (checkPendingWorkflows env st).2.scheduledRemovals =
      st.scheduledRemovals ++ st.pendingWorkflows.filterMap (schedKey env st) :=
    hspec.2.2
  have hpost : postWf env st wf = { wf with status := WStatus.failed } := by
    unfold postWf
    rw [hscan]
    show ({ wf with status := if r.success = true then WStatus.completed
      else WStatus.failed } : ConditionalWorkflow) = _
    rw [hfail]
    rfl
  refine ⟨?_, ?_, ?_, ?_, hres, hstore⟩
  · rw [hres]
    exact List.mem_filterMap.mpr ⟨(id, wf), hmem, hscan⟩
  · exact scanOutcome_fail_error env st wf r hscan hfail
  · rw [hstore id wf hmem, hpost]
  · rw [hsched]
    intro hmem2
    rcases List.mem_append.mp hmem2 with h1 | h2
    · exact hold h1
    · obtain ⟨e, he, hek⟩ := List.mem_filterMap.mp h2
      unfold schedKey at hek
      rcases hso : scanOutcome env st e.2 with _ | r'
      · rw [hso] at hek
        have hek2 : (none : Option (List Char)) = some id := hek
        exact Option.noConfusion hek2
      · rw [hso] at hek
        have hek2 : (if r'.success = true then some e.1 else none) = some id := hek
        by_cases hs : r'.success = true
        · rw [if_pos hs] at hek2
          have he1 : e.1 = id := Option.some.inj hek2
          have he2 : e.2 = wf := alistGet_unique st.pendingWorkflows id wf hnd hget e he he1
          rw [he2, hscan] at hso
          have hrr : r = r' := Option.some.inj hso
          rw [← hrr, hfail] at hs
          exact Bool.noConfusion hs
        · rw [if_neg hs] at hek2
          exact Option.noConfusion hek2

/-- C4 as amended: an input is classified compound exactly when it
contains a whitespace-delimited (case-insensitive) occurrence of the word
then, or a comma or semicolon followed by optional whitespace and then a
word character, or the word and delimited by whitespace and followed by
one of the fixed chaining verbs. -/
theorem c4_compound_classification (s : List Char) :
    isCompoundCommand s = true ↔ ThenConnectorP s ∨ PunctWordP s ∨ AndVerbP s := by
  rw [isCompoundCommand, Bool.or_eq_true, Bool.or_eq_true,
    regexTest_rThen_iff, regexTest_rPunct_iff, regexTest_rAndVerb_iff, or_assoc]

/-- C4 counterexample to the claim as stated: a comma followed by a space
and a word is compound for the code but has no punctuation immediately
followed by a non-space, and the word strengthen contains the literal
substring then yet the code does not classify the input compound. -/
theorem c4_counterexample :
    isCompoundCommand (str "x, y") = true ∧
    specSentenceCompound (str "x, y") = false ∧
    isCompoundCommand (str "strengthen it") = false ∧
    specSentenceCompound (str "strengthen it") = true :=
  ⟨rfl, rfl, rfl, rfl⟩

/-- C8 witness: under errEnv the lab workflow f1 fails with the client
error attached, is kept in the store as failed and is not scheduled for
removal, while g1 in the same scan is still evaluated. -/
theorem c8_scan_failure_isolation_witness :
    scanOutcome errEnv demoStateC wfLabSample = some c8r ∧
    c8r.success = false ∧
    (c8r ∈ (checkPendingWorkflows errEnv demoStateC).1 ∧
     c8r.error ≠ none ∧
     alistGet (checkPendingWorkflows errEnv demoStateC).2.pendingWorkflows (str "f1") =
       some { wfLabSample with status := WStatus.failed } ∧
     str "f1" ∉ (checkPendingWorkflows errEnv demoStateC).2.scheduledRemovals ∧
     (checkPendingWorkflows errEnv demoStateC).1 =
       demoStateC.pendingWorkflows.filterMap
         (fun e => scanOutcome errEnv demoStateC e.2) ∧
     (∀ k w, (k, w) ∈ demoStateC.pendingWorkflows →
       alistGet (checkPendingWorkflows errEnv demoStateC).2.pendingWorkflows k =
         some (postWf errEnv demoStateC w))) :=
  ⟨rfl, rfl,
   c8_scan_failure_isolation errEnv demoStateC (str "f1") wfLabSample c8r
     (by unfold KeysND; decide) (by decide) rfl rfl rfl (by decide)⟩

end Ehrsh
